import Mathlib

/-!
Shallow embedding of the evaluation and aggregation core of the
mathematical-problem-evaluation repository, together with theorems that
settle the frozen claims about its specification.

Texts are modelled as `List Char`; Python regular-expression searches are
modelled by explicit scanning functions proved faithful to the leftmost-match
semantics of `re.search` / `re.findall` for the concrete patterns that occur
in the source.
-/

namespace MathEval

/-! ## Character classes (ASCII fragment of Python's `\s`, `\d`, `\w`) -/

/-- Python's `\s` class (ASCII part): space, tab, newline, carriage return,
vertical tab, form feed. -/
def pIsSpace (c : Char) : Bool :=
  c = ' ' || c = '\t' || c = '\n' || c = '\r' || c = '\x0b' || c = '\x0c'

/-- ASCII letter, the class `[a-zA-Z]`. -/
def pIsAlpha (c : Char) : Bool :=
  ('a' ≤ c && c ≤ 'z') || ('A' ≤ c && c ≤ 'Z')

/-- Python's `\w` class (ASCII part): letters, digits, underscore. -/
def pIsWord (c : Char) : Bool :=
  pIsAlpha c || c.isDigit || c = '_'

/-- The class `[:\s]` used between an answer label and the number. -/
def pIsColonSpace (c : Char) : Bool :=
  c = ':' || pIsSpace c

/-! ## `ProblemEvaluator._check_correctness`

`re.findall(r'\b\d+\b', response)` returns every maximal digit run whose
neighbouring characters (when present) are non-word characters. -/

/-- Scanner for `re.findall(r'\b\d+\b', response)`: a maximal digit run
is a token exactly when the character before it (if any) and the character
after it (if any) are non-word characters.  `leftOk` holds when the
character before the current digit run (or, while `run = []`, before the
current position) is absent or a non-word character; `run` is the reversed
digit run collected so far. -/
def findNumbersGo (leftOk : Bool) (run : List Char) : List Char → List (List Char)
  | [] => if leftOk && !run.isEmpty then [run.reverse] else []
  | c :: cs =>
    if c.isDigit then findNumbersGo leftOk (c :: run) cs
    else
      (if leftOk && !run.isEmpty && !pIsWord c then [run.reverse] else []) ++
        findNumbersGo (!pIsWord c) [] cs

/-- All bare numeric tokens of the response: `re.findall(r'\b\d+\b', response)`. -/
def findNumbers (response : List Char) : List (List Char) :=
  findNumbersGo true [] response

/-- `ProblemEvaluator._check_correctness`: guard the falsy cases, then test
list membership of `correct_answer` among the bare numeric tokens. -/
def check_correctness (response correct_answer : List Char) : Bool :=
  if response = [] || correct_answer = [] then false
  else (findNumbers response).contains correct_answer

/-! ## `ProblemEvaluator._extract_answer` -/

/-- Does `s` start with the keyword `kw` (compared case-insensitively)? -/
def lowerEq (kw s : List Char) : Bool :=
  match kw, s with
  | [], _ => true
  | _ :: _, [] => false
  | k :: ks, c :: cs => (c.toLower = k) && lowerEq ks cs

/-- Match of `kw[:\s]+(\d+)` anchored at the start of `s`; returns the
captured digit run.  The character class `[:\s]+` is matched greedily; a
shorter separator run would leave a separator character where a digit is
required, so greedy matching is exact here. -/
def labelAt (kw s : List Char) : Option (List Char) :=
  if lowerEq kw s then
    let rest := s.drop kw.length
    match rest.takeWhile pIsColonSpace with
    | [] => none
    | _ :: _ =>
      match (rest.dropWhile pIsColonSpace).takeWhile Char.isDigit with
      | [] => none
      | d :: ds => some (d :: ds)
  else none

/-- Leftmost-match search: try the pattern at every suffix, left to right;
this is the semantics of `re.search`. -/
def searchFirst (f : List Char → Option (List Char)) : List Char → Option (List Char)
  | [] => f []
  | c :: cs =>
    match f (c :: cs) with
    | some v => some v
    | none => searchFirst f cs

/-- Can `(?:\s*$|\s*[\.\n])` match at this point?  Without `re.MULTILINE`,
`$` matches only at the end of the text or just before a final newline, so
the tail must be all whitespace, or a period / newline must follow a run of
whitespace. -/
def endsOk : List Char → Bool
  | [] => true
  | c :: cs =>
    if c = '.' || c = '\n' then true
    else if pIsSpace c then endsOk cs
    else false

/-- Match of `(\d+)(?:\s*$|\s*[\.\n])` anchored at the start of `s`.  A
shorter digit capture would put a digit where `\s*$`/`\s*[\.\n]` must match,
so the greedy maximal run is exact. -/
def endNumAt (s : List Char) : Option (List Char) :=
  match s.takeWhile Char.isDigit with
  | [] => none
  | d :: ds => if endsOk (s.dropWhile Char.isDigit) then some (d :: ds) else none

def answerKw : List Char := ['a', 'n', 's', 'w', 'e', 'r']

def solutionKw : List Char := ['s', 'o', 'l', 'u', 't', 'i', 'o', 'n']

def resultKw : List Char := ['r', 'e', 's', 'u', 'l', 't']

/-- `ProblemEvaluator._extract_answer`: the four patterns are tried in
order, each with leftmost-match search over the whole response. -/
def extract_answer (response : List Char) : Option (List Char) :=
  if response = [] then none
  else
    match searchFirst (labelAt answerKw) response with
    | some d => some d
    | none =>
      match searchFirst (labelAt solutionKw) response with
      | some d => some d
      | none =>
        match searchFirst (labelAt resultKw) response with
        | some d => some d
        | none => searchFirst endNumAt response

/-! ## `ProblemEvaluator.step_patterns` and `_extract_steps` -/

/-- Does `s` start with `p` (exact characters)? -/
def startsList (p s : List Char) : Bool :=
  match p, s with
  | [], _ => true
  | _ :: _, [] => false
  | a :: as_, b :: bs => a = b && startsList as_ bs

/-- Does `p` occur as a contiguous run inside `l`? -/
def containsSeq (p l : List Char) : Bool :=
  match l with
  | [] => startsList p []
  | _ :: t => startsList p l || containsSeq p t

/-- Case-insensitive keyword alternation `(?:kw1|kw2|...)` under `re.search`:
some keyword occurs in the lowered line. -/
def containsKeyword (kws : List (List Char)) (l : List Char) : Bool :=
  kws.any (fun kw => containsSeq kw (l.map Char.toLower))

/-- Match of `\d+\s*[\+\-\*\/]\s*\d+\s*=\s*\d+` anchored at the start.
Each greedy `\d+`/`\s*` is exact because the character that must follow is
never a digit / space respectively. -/
def calcAt (s : List Char) : Bool :=
  match s.takeWhile Char.isDigit with
  | [] => false
  | _ :: _ =>
    match ((s.dropWhile Char.isDigit).dropWhile pIsSpace) with
    | [] => false
    | op :: r2 =>
      (op = '+' || op = '-' || op = '*' || op = '/') &&
      (let r3 := r2.dropWhile pIsSpace
       match r3.takeWhile Char.isDigit with
       | [] => false
       | _ :: _ =>
         match ((r3.dropWhile Char.isDigit).dropWhile pIsSpace) with
         | '=' :: r5 =>
           match (r5.dropWhile pIsSpace).head? with
           | some d => d.isDigit
           | none => false
         | _ => false)

/-- Match of `[a-zA-Z]\s*=\s*\d+` anchored at the start. -/
def equationAt (s : List Char) : Bool :=
  match s with
  | [] => false
  | c :: rest =>
    pIsAlpha c &&
    (match rest.dropWhile pIsSpace with
     | '=' :: r2 =>
       match (r2.dropWhile pIsSpace).head? with
       | some d => d.isDigit
       | none => false
     | _ => false)

/-- Match of `[a-zA-Z]\([^)]+\)\s*=\s*\d+` anchored at the start.  The
greedy `[^)]+` necessarily stops at the first `)`. -/
def formulaAt (s : List Char) : Bool :=
  match s with
  | c :: '(' :: rest =>
    pIsAlpha c &&
    (match rest.takeWhile (fun d => d ≠ ')') with
     | [] => false
     | _ :: _ =>
       match rest.dropWhile (fun d => d ≠ ')') with
       | ')' :: r2 =>
         (match (r2.dropWhile pIsSpace) with
          | '=' :: r3 =>
            match (r3.dropWhile pIsSpace).head? with
            | some d => d.isDigit
            | none => false
          | _ => false)
       | _ => false)
  | _ => false

/-- `re.search` of an anchored boolean pattern: does it match at any suffix? -/
def anySuffix (p : List Char → Bool) : List Char → Bool
  | [] => p []
  | c :: cs => p (c :: cs) || anySuffix p cs

def explanationKws : List (List Char) :=
  ["because".data, "since".data, "therefore".data, "thus".data, "hence".data,
   "as a result".data]

def substitutionKws : List (List Char) :=
  ["substituting".data, "replacing".data, "plugging in".data]

def simplificationKws : List (List Char) :=
  ["simplifying".data, "reducing".data, "combining".data]

def verificationKws : List (List Char) :=
  ["checking".data, "verifying".data, "confirming".data]

def conclusionKws : List (List Char) :=
  ["therefore".data, "thus".data, "hence".data, "we get".data, "we obtain".data]

/-- The step categories, in the declaration order of
`ProblemEvaluator.step_patterns`. -/
inductive StepType where
  | calculation
  | equation
  | formula
  | explanation
  | substitution
  | simplification
  | verification
  | conclusion
deriving DecidableEq

/-- The pattern of one step category, as a matcher over a line. -/
def stepMatches (t : StepType) (l : List Char) : Bool :=
  match t with
  | .calculation => anySuffix calcAt l
  | .equation => anySuffix equationAt l
  | .formula => anySuffix formulaAt l
  | .explanation => containsKeyword explanationKws l
  | .substitution => containsKeyword substitutionKws l
  | .simplification => containsKeyword simplificationKws l
  | .verification => containsKeyword verificationKws l
  | .conclusion => containsKeyword conclusionKws l

/-- Declaration order of the rules in `ProblemEvaluator.step_patterns`. -/
def stepOrder : List StepType :=
  [.calculation, .equation, .formula, .explanation, .substitution,
   .simplification, .verification, .conclusion]

/-- The inner `for step_type, pattern in self.step_patterns.items()` loop
with its `break`: try each rule in declaration order, stop at the first hit. -/
def classifyLine (l : List Char) : Option StepType :=
  if stepMatches .calculation l then some .calculation
  else if stepMatches .equation l then some .equation
  else if stepMatches .formula l then some .formula
  else if stepMatches .explanation l then some .explanation
  else if stepMatches .substitution l then some .substitution
  else if stepMatches .simplification l then some .simplification
  else if stepMatches .verification l then some .verification
  else if stepMatches .conclusion l then some .conclusion
  else none

/-- `response.split('\n')`. -/
def splitNl : List Char → List (List Char)
  | [] => [[]]
  | c :: t =>
    if c = '\n' then [] :: splitNl t
    else
      match splitNl t with
      | h :: r => (c :: h) :: r
      | [] => [[c]]

/-- `line.strip()` (whitespace from both ends). -/
def stripL (l : List Char) : List Char :=
  ((l.dropWhile pIsSpace).reverse.dropWhile pIsSpace).reverse

/-- The line loop of `_extract_steps`. -/
def extractStepsGo : List (List Char) → List (StepType × List Char)
  | [] => []
  | line :: rest =>
    let s := stripL line
    if s = [] then extractStepsGo rest
    else
      match classifyLine s with
      | some t => (t, s) :: extractStepsGo rest
      | none => extractStepsGo rest

/-- `ProblemEvaluator._extract_steps`. -/
def extract_steps (response : List Char) : List (StepType × List Char) :=
  if response = [] then []
  else extractStepsGo (splitNl response)

/-! ## `ProblemEvaluator._analyze_steps` and `evaluate_responses` -/

/-- Name of a step category, as it is keyed in the Python dictionaries. -/
def stepName (t : StepType) : String :=
  match t with
  | .calculation => "calculation"
  | .equation => "equation"
  | .formula => "formula"
  | .explanation => "explanation"
  | .substitution => "substitution"
  | .simplification => "simplification"
  | .verification => "verification"
  | .conclusion => "conclusion"

/-- Ordered-dictionary lookup on an association list. -/
def lookupA {β : Type} (k : String) : List (String × β) → Option β
  | [] => none
  | (k', v) :: rest => if k' = k then some v else lookupA k rest

/-- `d[k] = d.get(k, 0) + n` on an insertion-ordered dictionary: update in
place when the key exists, append otherwise. -/
def bumpA (d : List (String × Nat)) (k : String) (n : Nat) : List (String × Nat) :=
  match d with
  | [] => [(k, n)]
  | (k', v) :: rest =>
    if k' = k then (k', v + n) :: rest else (k', v) :: bumpA rest k n

/-- The `expected_sequence` of `_check_step_completeness`. -/
def expectedSeq : List String :=
  ["explanation", "substitution", "calculation", "simplification",
   "verification", "conclusion"]

/-- `ProblemEvaluator._check_step_completeness`. -/
def check_step_completeness (stepSequence : List String) : Bool :=
  if stepSequence = [] then false
  else expectedSeq.all (fun s => stepSequence.contains s)

/-- The step-analysis record produced by `_analyze_steps`. -/
structure StepAnalysisR where
  step_count : Nat
  step_types : List (String × Nat)
  completeness : Bool
deriving DecidableEq

/-- `ProblemEvaluator._analyze_steps`. -/
def analyze_steps (steps : List (StepType × List Char)) : StepAnalysisR :=
  let seq := steps.map (fun s => stepName s.1)
  { step_count := steps.length
    step_types := seq.foldl (fun d t => bumpA d t 1) []
    completeness := check_step_completeness seq }

/-- The `correctness` sub-record of one model evaluation. -/
structure CorrectnessR where
  is_correct : Bool
  matched_answer : Option (List Char)
  error : Option String
deriving DecidableEq

/-- One entry of `model_evaluations`. -/
structure ModelEvalR where
  response : Option (List Char)
  predicted_category : Option String
  correctness : CorrectnessR
  step_analysis : StepAnalysisR
deriving DecidableEq

/-- A problem as consumed by `evaluate_responses` (`problem.get(...)` with
the fields the evaluator reads). -/
structure PProblem where
  problem_id : String
  question : String
  correct_answer : List Char
  model_categories : List (String × Option String)

/-- A value of the `responses` mapping: either a dict with `solution` and
`category` keys, or a plain text that may be `None`. -/
inductive RespVal where
  | rdict (solution : Option (List Char)) (category : Option String)
  | rtext (t : Option (List Char))

/-- The response text the evaluator extracts from a `responses` value. -/
def respText : RespVal → Option (List Char)
  | .rdict s _ => s
  | .rtext t => t

/-- The predicted category the evaluator attaches to a model's record. -/
def respCategory (p : PProblem) (name : String) : RespVal → Option String
  | .rdict _ c => c
  | .rtext _ => (lookupA name p.model_categories).getD none

/-- Evaluation of a single model's response inside the
`for model_name, response in responses.items()` loop. -/
def evalModel (p : PProblem) (name : String) (rv : RespVal) : ModelEvalR :=
  match respText rv with
  | none =>
    { response := none
      predicted_category := respCategory p name rv
      correctness :=
        { is_correct := false
          matched_answer := none
          error := some "No response received from model" }
      step_analysis := { step_count := 0, step_types := [], completeness := false } }
  | some text =>
    { response := some text
      predicted_category := respCategory p name rv
      correctness :=
        { is_correct := check_correctness text p.correct_answer
          matched_answer := extract_answer text
          error := none }
      step_analysis := analyze_steps (extract_steps text) }

/-- The results record built by `evaluate_responses`. -/
structure EvalResults where
  problem_id : String
  question : String
  correct_answer : List Char
  model_evaluations : List (String × ModelEvalR)

/-- `ProblemEvaluator.evaluate_responses`. -/
def evaluate_responses (p : PProblem) (responses : List (String × RespVal)) :
    EvalResults :=
  { problem_id := p.problem_id
    question := p.question
    correct_answer := p.correct_answer
    model_evaluations := responses.map (fun me => (me.1, evalModel p me.1 me.2)) }

/-! ## `utils/result_analyzer.py` (`ResultAnalyzer.analyze`)

The analyzer consumes the keyed results produced by `evaluate_responses`:
a mapping from problem id to a record with `correct_answer` and
`model_evaluations`.  Insertion-ordered dictionaries are modelled as
association lists; the wall-clock `timestamp` field is not modelled.
Python `KeyError` exceptions (indexing the fixed `chatgpt`/`gemini`/
`perplexity` dictionaries with an unknown model name) are modelled with
`Except`. -/

/-- One model evaluation as read by the analyzer. -/
structure AEval where
  is_correct : Bool
  matched_answer : Option String
  predicted_category : Option String
  step_count : Nat
  step_types : List (String × Nat)
deriving DecidableEq

/-- One problem's results as read by the analyzer. -/
structure AProblem where
  correct_answer : String
  model_evaluations : List (String × AEval)
deriving DecidableEq

/-- The keyed results mapping: problem id to per-problem results. -/
abbrev AResults := List (String × AProblem)

/-- A counter dictionary with exactly the keys `chatgpt`, `gemini`,
`perplexity`. -/
structure Counts3 where
  chatgpt : Nat
  gemini : Nat
  perplexity : Nat
deriving DecidableEq

/-- An accuracy dictionary with exactly the keys `chatgpt`, `gemini`,
`perplexity`. -/
structure Acc3 where
  chatgpt : ℚ
  gemini : ℚ
  perplexity : ℚ
deriving DecidableEq

def models3 : List String := ["chatgpt", "gemini", "perplexity"]

/-- `counts[model] += 1`: a `KeyError` for any other model name. -/
def bump3 (c : Counts3) (m : String) : Except String Counts3 :=
  if m = "chatgpt" then .ok { c with chatgpt := c.chatgpt + 1 }
  else if m = "gemini" then .ok { c with gemini := c.gemini + 1 }
  else if m = "perplexity" then .ok { c with perplexity := c.perplexity + 1 }
  else .error "KeyError"

/-- `correct / total if total > 0 else 0` (exact rationals stand in for
Python floats). -/
def ratio (c t : Nat) : ℚ :=
  if 0 < t then (c : ℚ) / (t : ℚ) else 0

def mkAcc (c i : Counts3) : Acc3 :=
  { chatgpt := ratio c.chatgpt (c.chatgpt + i.chatgpt)
    gemini := ratio c.gemini (c.gemini + i.gemini)
    perplexity := ratio c.perplexity (c.perplexity + i.perplexity) }

structure OverallStats where
  total_problems : Nat
  correct_answers : Counts3
  incorrect_answers : Counts3
  accuracy : Acc3
deriving DecidableEq

/-- Inner loop of `_calculate_overall_statistics` over one problem's
`model_evaluations`. -/
def tallyEvals (acc : Counts3 × Counts3) :
    List (String × AEval) → Except String (Counts3 × Counts3)
  | [] => .ok acc
  | (m, e) :: rest =>
    if e.is_correct then (bump3 acc.1 m).bind fun c => tallyEvals (c, acc.2) rest
    else (bump3 acc.2 m).bind fun i => tallyEvals (acc.1, i) rest

/-- Outer loop of `_calculate_overall_statistics`. -/
def tallyProblems (acc : Counts3 × Counts3) :
    AResults → Except String (Counts3 × Counts3)
  | [] => .ok acc
  | pr :: rest =>
    (tallyEvals acc pr.2.model_evaluations).bind fun a => tallyProblems a rest

/-- `ResultAnalyzer._calculate_overall_statistics`. -/
def calcOverallStatistics (rs : AResults) : Except String OverallStats :=
  (tallyProblems (⟨0, 0, 0⟩, ⟨0, 0, 0⟩) rs).map fun ci =>
    { total_problems := rs.length
      correct_answers := ci.1
      incorrect_answers := ci.2
      accuracy := mkAcc ci.1 ci.2 }

structure Perf where
  total : Nat
  correct : Nat
  accuracy : ℚ
  avg_steps : ℚ
deriving DecidableEq

/-- Accumulating loop of `_analyze_model_performance` for one model. -/
def perfGo (m : String) (rs : AResults) (total correct steps : Nat) :
    Nat × Nat × Nat :=
  match rs with
  | [] => (total, correct, steps)
  | pr :: rest =>
    match lookupA m pr.2.model_evaluations with
    | some e =>
      perfGo m rest (total + 1) (correct + if e.is_correct then 1 else 0)
        (steps + e.step_count)
    | none => perfGo m rest total correct steps

def perfFor (rs : AResults) (m : String) : Perf :=
  let tcs := perfGo m rs 0 0 0
  { total := tcs.1
    correct := tcs.2.1
    accuracy := ratio tcs.2.1 tcs.1
    avg_steps := if 0 < tcs.1 then (tcs.2.2 : ℚ) / (tcs.1 : ℚ) else 0 }

/-- `ResultAnalyzer._analyze_model_performance`. -/
def modelPerformance (rs : AResults) : List (String × Perf) :=
  models3.map fun m => (m, perfFor rs m)

/-- Per-model step-type dictionaries, keys fixed to the three models. -/
structure Steps3 where
  chatgpt : List (String × Nat)
  gemini : List (String × Nat)
  perplexity : List (String × Nat)
deriving DecidableEq

/-- Inner loop of `_analyze_steps` over one record's `step_types` items:
each item indexes `step_analysis[model]`, a `KeyError` for an unknown
model name (unknown model with no items never indexes and is harmless). -/
def addStepsE (acc : Steps3) (m : String) :
    List (String × Nat) → Except String Steps3
  | [] => .ok acc
  | (st, c) :: rest =>
    if m = "chatgpt" then
      addStepsE { acc with chatgpt := bumpA acc.chatgpt st c } m rest
    else if m = "gemini" then
      addStepsE { acc with gemini := bumpA acc.gemini st c } m rest
    else if m = "perplexity" then
      addStepsE { acc with perplexity := bumpA acc.perplexity st c } m rest
    else .error "KeyError"

def stepsEvalsE (acc : Steps3) :
    List (String × AEval) → Except String Steps3
  | [] => .ok acc
  | (m, e) :: rest =>
    (addStepsE acc m e.step_types).bind fun a => stepsEvalsE a rest

def stepsProblemsE (acc : Steps3) : AResults → Except String Steps3
  | [] => .ok acc
  | pr :: rest =>
    (stepsEvalsE acc pr.2.model_evaluations).bind fun a => stepsProblemsE a rest

/-- `ResultAnalyzer._analyze_steps`. -/
def analyzeStepsA (rs : AResults) : Except String Steps3 :=
  stepsProblemsE ⟨[], [], []⟩ rs

/-- One entry of an error list. -/
structure ErrEntry where
  problem_id : String
  expected : String
  received : Option String
deriving DecidableEq

/-- Per-model error lists, keys fixed to the three models. -/
structure Errs3 where
  chatgpt : List ErrEntry
  gemini : List ErrEntry
  perplexity : List ErrEntry
deriving DecidableEq

/-- Inner loop of `_analyze_errors`: every incorrect record appends an
entry to `errors[model]`, a `KeyError` for an unknown model name. -/
def errEvalsE (pid ca : String) (acc : Errs3) :
    List (String × AEval) → Except String Errs3
  | [] => .ok acc
  | (m, e) :: rest =>
    if e.is_correct then errEvalsE pid ca acc rest
    else if m = "chatgpt" then
      errEvalsE pid ca
        { acc with chatgpt := acc.chatgpt ++ [⟨pid, ca, e.matched_answer⟩] } rest
    else if m = "gemini" then
      errEvalsE pid ca
        { acc with gemini := acc.gemini ++ [⟨pid, ca, e.matched_answer⟩] } rest
    else if m = "perplexity" then
      errEvalsE pid ca
        { acc with perplexity := acc.perplexity ++ [⟨pid, ca, e.matched_answer⟩] } rest
    else .error "KeyError"

def errProblemsE (acc : Errs3) : AResults → Except String Errs3
  | [] => .ok acc
  | pr :: rest =>
    (errEvalsE pr.1 pr.2.correct_answer acc pr.2.model_evaluations).bind fun a =>
      errProblemsE a rest

/-- `ResultAnalyzer._analyze_errors`. -/
def analyzeErrorsA (rs : AResults) : Except String Errs3 :=
  errProblemsE ⟨[], [], []⟩ rs

/-- `predicted_category` after the analyzer's falsy check (`None` or the
empty string become `"unknown"`). -/
def pcNorm (e : AEval) : String :=
  match e.predicted_category with
  | none => "unknown"
  | some s => if s = "" then "unknown" else s

/-- `categories[cat][m] += 1` on an inner dictionary holding all three
model keys (total: `m` ranges over the fixed model list). -/
def catBump (c : Counts3) (m : String) : Counts3 :=
  if m = "chatgpt" then { c with chatgpt := c.chatgpt + 1 }
  else if m = "gemini" then { c with gemini := c.gemini + 1 }
  else if m = "perplexity" then { c with perplexity := c.perplexity + 1 }
  else c

/-- In-place update of the category dictionary at an existing key. -/
def bumpCatA (d : List (String × Counts3)) (cat m : String) :
    List (String × Counts3) :=
  match d with
  | [] => []
  | (k, v) :: rest =>
    if k = cat then (k, catBump v m) :: rest else (k, v) :: bumpCatA rest cat m

/-- `if pc not in categories: categories[pc] = {m: 0 for m in models}` then
`categories[pc][model] += 1`. -/
def catUpdate (d : List (String × Counts3)) (cat m : String) :
    List (String × Counts3) :=
  match lookupA cat d with
  | some _ => bumpCatA d cat m
  | none => d ++ [(cat, catBump ⟨0, 0, 0⟩ m)]

/-- Inner loop of `_analyze_categories` for one model over all problems. -/
def catProblems (m : String) (d : List (String × Counts3)) :
    AResults → List (String × Counts3)
  | [] => d
  | pr :: rest =>
    match lookupA m pr.2.model_evaluations with
    | some e =>
      if e.is_correct then catProblems m (catUpdate d (pcNorm e) m) rest
      else catProblems m d rest
    | none => catProblems m d rest

/-- `ResultAnalyzer._analyze_categories`: the model loop is outermost, in
the fixed order `chatgpt`, `gemini`, `perplexity`. -/
def analyzeCategoriesA (rs : AResults) : List (String × Counts3) :=
  catProblems "perplexity" (catProblems "gemini" (catProblems "chatgpt" [] rs) rs) rs

/-- The analysis record assembled by `ResultAnalyzer.analyze` (without the
wall-clock `timestamp`). -/
structure AnalysisR where
  overall : OverallStats
  performance : List (String × Perf)
  steps : Steps3
  errors : Errs3
  categories : List (String × Counts3)
deriving DecidableEq

/-- `ResultAnalyzer.analyze`; a raised `KeyError` propagates out. -/
def analyze (rs : AResults) : Except String AnalysisR :=
  (calcOverallStatistics rs).bind fun ov =>
    (analyzeStepsA rs).bind fun st =>
      (analyzeErrorsA rs).bind fun er =>
        .ok { overall := ov
              performance := modelPerformance rs
              steps := st
              errors := er
              categories := analyzeCategoriesA rs }

/-! ## `evaluation/result_analyzer.py` (`_analyze_response_times`,
`_compare_models`)

This second analyzer reads a flat mapping `problem_id -> model_name ->
model_data`, skipping an inline `category` key; response times are read
with `model_data.get('response_time', 0)`. -/

/-- One model's data as read by `evaluation/result_analyzer.py`. -/
structure RData where
  is_correct : Bool
  steps : List String
  response_time : Option ℚ
  error_type : Option String
deriving DecidableEq

/-- The flat results mapping of `evaluation/result_analyzer.py`. -/
abbrev RResults := List (String × List (String × RData))

/-- In-place update at a key of an insertion-ordered dictionary. -/
def updA {β : Type} (d : List (String × β)) (k : String) (f : β → β) :
    List (String × β) :=
  match d with
  | [] => []
  | (k', v) :: rest =>
    if k' = k then (k', f v) :: rest else (k', v) :: updA rest k f

/-- Accumulator of `_analyze_response_times`; `rmin = none` models the
initial `float('inf')`. -/
structure RTAcc where
  total : ℚ
  count : Nat
  rmin : Option ℚ
  rmax : ℚ
deriving DecidableEq

def rtInit : RTAcc := ⟨0, 0, none, 0⟩

/-- One record's contribution: `total += time; count += 1;
min = min(min, time); max = max(max, time)`. -/
def rtUpdate (a : RTAcc) (t : ℚ) : RTAcc :=
  { total := a.total + t
    count := a.count + 1
    rmin := some (match a.rmin with | none => t | some x => min x t)
    rmax := max a.rmax t }

/-- `if model_name not in response_times: response_times[model_name] = init`. -/
def rtEnsure (d : List (String × RTAcc)) (m : String) : List (String × RTAcc) :=
  match lookupA m d with
  | some _ => d
  | none => d ++ [(m, rtInit)]

/-- Body of the inner loop of `_analyze_response_times` for one
`(model_name, model_data)` item. -/
def rtEntry (d : List (String × RTAcc)) (m : String) (md : RData) :
    List (String × RTAcc) :=
  if m = "category" then d
  else updA (rtEnsure d m) m (fun a => rtUpdate a (md.response_time.getD 0))

def rtEntries (d : List (String × RTAcc)) :
    List (String × RData) → List (String × RTAcc)
  | [] => d
  | (m, md) :: rest => rtEntries (rtEntry d m md) rest

def rtProblems (d : List (String × RTAcc)) : RResults → List (String × RTAcc)
  | [] => d
  | pr :: rest => rtProblems (rtEntries d pr.2) rest

/-- Final per-model response-time statistics, with the average added. -/
structure RTStats where
  total : ℚ
  count : Nat
  rmin : Option ℚ
  rmax : ℚ
  average : ℚ
deriving DecidableEq

def rtFinalize (a : RTAcc) : RTStats :=
  { total := a.total
    count := a.count
    rmin := a.rmin
    rmax := a.rmax
    average := if 0 < a.count then a.total / (a.count : ℚ) else 0 }

/-- `ResultAnalyzer._analyze_response_times` of
`evaluation/result_analyzer.py`. -/
def analyzeResponseTimes (rs : RResults) : List (String × RTStats) :=
  (rtProblems [] rs).map fun p => (p.1, rtFinalize p.2)

/-- Accumulator of `_compare_models`. -/
structure CmpAcc where
  correct : Nat
  total : Nat
  steps : Nat
deriving DecidableEq

def cmpUpdate (a : CmpAcc) (md : RData) : CmpAcc :=
  { correct := a.correct + (if md.is_correct then 1 else 0)
    total := a.total + 1
    steps := a.steps + md.steps.length }

def cmpEnsure (d : List (String × CmpAcc)) (m : String) :
    List (String × CmpAcc) :=
  match lookupA m d with
  | some _ => d
  | none => d ++ [(m, ⟨0, 0, 0⟩)]

def cmpEntry (d : List (String × CmpAcc)) (m : String) (md : RData) :
    List (String × CmpAcc) :=
  if m = "category" then d
  else updA (cmpEnsure d m) m (fun a => cmpUpdate a md)

def cmpEntries (d : List (String × CmpAcc)) :
    List (String × RData) → List (String × CmpAcc)
  | [] => d
  | (m, md) :: rest => cmpEntries (cmpEntry d m md) rest

def cmpProblems (d : List (String × CmpAcc)) : RResults → List (String × CmpAcc)
  | [] => d
  | pr :: rest => cmpProblems (cmpEntries d pr.2) rest

/-- Final per-model comparison metrics of `_compare_models`. -/
structure CmpStats where
  correct : Nat
  total : Nat
  steps : Nat
  accuracy : ℚ
  avg_steps : ℚ
deriving DecidableEq

def cmpFinalize (a : CmpAcc) : CmpStats :=
  { correct := a.correct
    total := a.total
    steps := a.steps
    accuracy := if 0 < a.total then ((a.correct : ℚ) / (a.total : ℚ)) * 100 else 0
    avg_steps := if 0 < a.total then (a.steps : ℚ) / (a.total : ℚ) else 0 }

/-- `ResultAnalyzer._compare_models` of `evaluation/result_analyzer.py`. -/
def compareModels (rs : RResults) : List (String × CmpStats) :=
  (cmpProblems [] rs).map fun p => (p.1, cmpFinalize p.2)

/-! ## Comparative reporter (spec §4.8) -/

/-- An evaluation record as consumed by the comparative reporter. -/
structure CRecord where
  model : String
  is_correct : Bool
  step_sequence : List String
deriving DecidableEq

/-- First index at which two step-type sequences differ (`none` when they
are identical; a position beyond the end of the shorter sequence counts as
a difference). -/
def firstDivergence : List String → List String → Option Nat
  | [], [] => none
  | [], _ :: _ => some 0
  | _ :: _, [] => some 0
  | x :: xs, y :: ys =>
    if x = y then (firstDivergence xs ys).map (fun n => n + 1) else some 0

/-- The step types present in `a` but absent from `b`. -/
def typesOnlyIn (a b : List String) : List String :=
  (a.filter (fun t => !(b.contains t))).dedup

/-- One pairing of an incorrect model against a correct one. -/
structure CompEntry where
  incorrect_model : String
  compared_with : String
  first_divergence : Option Nat
  missing_types : List String
  extra_types : List String
deriving DecidableEq

/-- A problem's comparative report. -/
inductive ProblemReport where
  | noCorrectModel
  | comparisons (entries : List CompEntry)
deriving DecidableEq

/-- Modelled from the spec: `compare_correct_and_incorrect_models` is
called in `src/main.py` but is defined nowhere under the repository
sources, so the reporter is taken from spec §4.8: partition a problem's
records into correct and incorrect models; pair every incorrect model with
a correct model (the first one), reporting the first point of divergence of
the step-type sequences and the types present in one sequence but absent
from the other; when no model is correct this is recorded explicitly. -/
def compareProblem (records : List CRecord) : ProblemReport :=
  let correct := records.filter (fun r => r.is_correct)
  let incorrect := records.filter (fun r => !r.is_correct)
  match correct with
  | [] => .noCorrectModel
  | c :: _ =>
    .comparisons (incorrect.map fun ic =>
      { incorrect_model := ic.model
        compared_with := c.model
        first_divergence := firstDivergence ic.step_sequence c.step_sequence
        missing_types := typesOnlyIn c.step_sequence ic.step_sequence
        extra_types := typesOnlyIn ic.step_sequence c.step_sequence })

/-! ## Token lemmas and claims C1, C10 -/

/-- Every token emitted by the scanner is a nonempty string of digits
(given that the run collected so far is all digits). -/
theorem findNumbersGo_tokens (l : List Char) : ∀ (lOk : Bool) (run : List Char),
    (∀ x ∈ run, x.isDigit = true) →
    ∀ t ∈ findNumbersGo lOk run l, t ≠ [] ∧ ∀ x ∈ t, x.isDigit = true := by
  induction l with
  | nil =>
    intro lOk run hrun t ht
    simp only [findNumbersGo] at ht
    split at ht
    · rename_i h
      simp only [Bool.and_eq_true, Bool.not_eq_eq_eq_not, Bool.not_true,
        List.isEmpty_eq_false] at h
      simp only [List.mem_singleton] at ht
      subst ht
      refine ⟨by simpa using h.2, ?_⟩
      intro x hx
      exact hrun x (List.mem_reverse.mp hx)
    · simp at ht
  | cons c cs ih =>
    intro lOk run hrun t ht
    simp only [findNumbersGo] at ht
    split at ht
    · exact ih lOk (c :: run)
        (by
          intro x hx
          rcases List.mem_cons.mp hx with h | h
          · subst h; assumption
          · exact hrun x h) t ht
    · rcases List.mem_append.mp ht with h | h
      · split at h
        · rename_i hcond
          simp only [Bool.and_eq_true, Bool.not_eq_eq_eq_not, Bool.not_true,
            List.isEmpty_eq_false] at hcond
          simp only [List.mem_singleton] at h
          subst h
          refine ⟨by simpa using hcond.1.2, ?_⟩
          intro x hx
          exact hrun x (List.mem_reverse.mp hx)
        · simp at h
      · exact ih _ [] (by simp) t h

/-- Every bare numeric token of a response is a nonempty digit string. -/
theorem findNumbers_tokens (response : List Char) :
    ∀ t ∈ findNumbers response, t ≠ [] ∧ ∀ x ∈ t, x.isDigit = true :=
  findNumbersGo_tokens response true [] (by simp)

/-- `_check_correctness` is exactly list membership among the bare numeric
tokens (the falsy guards change nothing: an empty response has no tokens
and an empty answer is never a token). -/
theorem check_correctness_mem (response answer : List Char) :
    check_correctness response answer = true ↔ answer ∈ findNumbers response := by
  unfold check_correctness
  rcases eq_or_ne response [] with hr | hr
  · subst hr
    simp [findNumbers, findNumbersGo]
  · rcases eq_or_ne answer [] with ha | ha
    · subst ha
      simp only [hr, Bool.or_true, if_pos, if_true]
      constructor
      · intro h; cases h
      · intro hmem
        exact absurd rfl (findNumbers_tokens response [] hmem).1
    · simp only [hr, ha, Bool.or_self, if_neg, if_false]
      exact List.elem_iff

/-- C1: under the membership policy, `_check_correctness` returns true iff
the ground-truth answer occurs among all bare numeric tokens of the
response text, a condition invariant under any reordering of the token
list (hence independent of token order and of which token the answer
extractor picked). -/
theorem correctness_membership_policy (response answer : List Char) :
    (check_correctness response answer = true ↔ answer ∈ findNumbers response) ∧
    ∀ tokens : List (List Char), List.Perm (findNumbers response) tokens →
      (answer ∈ findNumbers response ↔ answer ∈ tokens) := by
  refine ⟨check_correctness_mem response answer, ?_⟩
  intro tokens hperm
  exact hperm.mem_iff

/-- Witness for C1 at a concrete response and answer, with a concrete
reordered token list. -/
theorem correctness_membership_policy_witness :
    (check_correctness "it is 4 and 7".data "7".data = true ↔
      "7".data ∈ findNumbers "it is 4 and 7".data) ∧
    ("7".data ∈ findNumbers "it is 4 and 7".data ↔ "7".data ∈ [['7'], ['4']]) :=
  ⟨(correctness_membership_policy "it is 4 and 7".data "7".data).1,
   (correctness_membership_policy "it is 4 and 7".data "7".data).2
     [['7'], ['4']] (by decide)⟩

/-- C10: the correctness check can only succeed when the ground truth is
exactly one of the response's unsigned-integer tokens; any ground-truth
answer that is not a nonempty pure digit string makes it return false for
every response text. -/
theorem correctness_needs_digit_answer (response answer : List Char) :
    (¬ (answer ≠ [] ∧ ∀ x ∈ answer, x.isDigit = true) →
      check_correctness response answer = false) ∧
    (check_correctness response answer = true →
      answer ∈ findNumbers response ∧ answer ≠ [] ∧ ∀ x ∈ answer, x.isDigit = true) := by
  constructor
  · intro hnot
    by_contra hne
    have htrue : check_correctness response answer = true := by
      cases h : check_correctness response answer
      · exact absurd h hne
      · rfl
    exact hnot (findNumbers_tokens response answer
      ((check_correctness_mem response answer).mp htrue))
  · intro htrue
    have hmem := (check_correctness_mem response answer).mp htrue
    exact ⟨hmem, findNumbers_tokens response answer hmem⟩

/-- Witness for C10: a decimal-point answer is rejected for a response
containing it verbatim, and a successful check exhibits a digit token. -/
theorem correctness_needs_digit_answer_witness :
    check_correctness "the area is 4.5".data "4.5".data = false ∧
    ("25".data ∈ findNumbers "A = 25".data ∧ "25".data ≠ [] ∧
      ∀ x ∈ "25".data, x.isDigit = true) :=
  ⟨(correctness_needs_digit_answer "the area is 4.5".data "4.5".data).1
     (by intro h; exact absurd (h.2 '.' (by decide)) (by decide)),
   (correctness_needs_digit_answer "A = 25".data "25".data).2 (by decide)⟩

/-! ## Claim C4: first-match step classification -/

/-- The `for`/`break` rendering of the pattern loop equals a first-match
search over the rules in declaration order. -/
theorem classifyLine_eq_find (l : List Char) :
    classifyLine l = stepOrder.find? (fun t => stepMatches t l) := by
  unfold classifyLine stepOrder
  split_ifs with h1 h2 h3 h4 h5 h6 h7 h8 <;> simp_all [List.find?_cons]

/-- The line loop keeps exactly the classified, non-blank stripped lines. -/
theorem extractStepsGo_eq (ls : List (List Char)) :
    extractStepsGo ls =
      ((ls.map stripL).filter (fun s => !s.isEmpty)).filterMap
        (fun s => (classifyLine s).map (fun t => (t, s))) := by
  induction ls with
  | nil => rfl
  | cons line rest ih =>
    by_cases hs : stripL line = []
    · simp [extractStepsGo, hs, ih]
    · cases hc : classifyLine (stripL line) <;>
        simp [extractStepsGo, hs, hc, ih, List.filter_cons, List.filterMap_cons,
          List.isEmpty_eq_false.mpr hs]

/-- C4: a line is classified as the first matching category in
rule-declaration order (calculation, equation, formula, explanation,
substitution, simplification, verification, conclusion), and a line
matching no rule is dropped from the step list instead of being classified
as "unknown". -/
theorem step_classification_first_match :
    (∀ l : List Char, classifyLine l = stepOrder.find? (fun t => stepMatches t l)) ∧
    (∀ response : List Char,
      extract_steps response =
        (((splitNl response).map stripL).filter (fun s => !s.isEmpty)).filterMap
          (fun s => (classifyLine s).map (fun t => (t, s)))) := by
  refine ⟨classifyLine_eq_find, ?_⟩
  intro response
  unfold extract_steps
  rcases eq_or_ne response [] with hr | hr
  · subst hr; rfl
  · simp only [hr, if_neg, if_false]
    exact extractStepsGo_eq (splitNl response)

/-! ## Claim C2: the answer-extraction fallback -/

/-- No label-prefixed pattern (`answer`/`solution`/`result` followed by
`[:\s]+` and a number) matches anywhere in the response. -/
def noLabelMatch (r : List Char) : Bool :=
  (searchFirst (labelAt answerKw) r).isNone &&
  (searchFirst (labelAt solutionKw) r).isNone &&
  (searchFirst (labelAt resultKw) r).isNone

/-- C2 counterexample: in `"1. 2"` no label pattern matches and the bare
numbers are `1` and `2`, yet the extractor returns `1` (the first number
followed by a period), not the last bare number `2`. -/
theorem extract_answer_not_last_bare :
    noLabelMatch "1. 2".data = true ∧
    extract_answer "1. 2".data = some ['1'] ∧
    (findNumbers "1. 2".data).getLast? = some ['2'] ∧
    extract_answer "1. 2".data ≠ (findNumbers "1. 2".data).getLast? := by
  decide

/-- A label match captures a digit of the text. -/
theorem labelAt_none_of_noDigits (kw s : List Char)
    (h : ∀ c ∈ s, c.isDigit = false) : labelAt kw s = none := by
  unfold labelAt
  split
  · cases hsep : (s.drop kw.length).takeWhile pIsColonSpace with
    | nil => simp [hsep]
    | cons a as_ =>
      cases hds : ((s.drop kw.length).dropWhile pIsColonSpace).takeWhile Char.isDigit with
      | nil => simp [hsep, hds]
      | cons d ds =>
        exfalso
        have hd : d.isDigit = true := by
          have : d ∈ ((s.drop kw.length).dropWhile pIsColonSpace).takeWhile Char.isDigit := by
            rw [hds]; exact List.mem_cons_self d ds
          exact List.mem_takeWhile_imp this
        have hmem : d ∈ s := by
          have h1 : d ∈ (s.drop kw.length).dropWhile pIsColonSpace := by
            have : d ∈ ((s.drop kw.length).dropWhile pIsColonSpace).takeWhile Char.isDigit := by
              rw [hds]; exact List.mem_cons_self d ds
            exact (List.takeWhile_sublist _).mem this
          exact (List.drop_sublist kw.length s).mem ((List.dropWhile_sublist _).mem h1)
        rw [h d hmem] at hd
        cases hd
  · rfl

/-- The end-anchored fallback pattern needs a digit of the text. -/
theorem endNumAt_none_of_noDigits (s : List Char)
    (h : ∀ c ∈ s, c.isDigit = false) : endNumAt s = none := by
  unfold endNumAt
  cases hds : s.takeWhile Char.isDigit with
  | nil => rfl
  | cons d ds =>
    exfalso
    have hd : d.isDigit = true := by
      have : d ∈ s.takeWhile Char.isDigit := by
        rw [hds]; exact List.mem_cons_self d ds
      exact List.mem_takeWhile_imp this
    have hmem : d ∈ s := (List.takeWhile_sublist _).mem
      (by rw [hds]; exact List.mem_cons_self d ds)
    rw [h d hmem] at hd
    cases hd

/-- Leftmost search for a pattern needing a digit fails on digit-free text. -/
theorem searchFirst_none_of_noDigits
    (f : List Char → Option (List Char))
    (hf : ∀ s : List Char, (∀ c ∈ s, c.isDigit = false) → f s = none)
    (l : List Char) (h : ∀ c ∈ l, c.isDigit = false) :
    searchFirst f l = none := by
  induction l with
  | nil => exact hf [] (by simp)
  | cons c cs ih =>
    unfold searchFirst
    rw [hf (c :: cs) h]
    exact ih (fun x hx => h x (List.mem_cons_of_mem c hx))

/-- C2 amended: when no label-prefixed pattern matches, the extractor
returns the leftmost number that `(\d+)(?:\s*$|\s*[\.\n])` accepts — the
first (not the last) number followed by optional whitespace and then the
end of the text, a period, or a newline — and on a response containing no
digit at all it returns `none`. -/
theorem extract_answer_fallback (r : List Char) :
    (noLabelMatch r = true → extract_answer r = searchFirst endNumAt r) ∧
    ((∀ c ∈ r, c.isDigit = false) → extract_answer r = none) := by
  constructor
  · intro hnl
    unfold noLabelMatch at hnl
    simp only [Bool.and_eq_true, Option.isNone_iff_eq_none] at hnl
    unfold extract_answer
    rcases eq_or_ne r [] with hr | hr
    · subst hr; rfl
    · simp only [hr, if_neg, if_false, hnl.1.1, hnl.1.2, hnl.2]
  · intro hnd
    unfold extract_answer
    rcases eq_or_ne r [] with hr | hr
    · simp [hr]
    · simp only [hr, if_neg, if_false]
      rw [searchFirst_none_of_noDigits _ (labelAt_none_of_noDigits answerKw) r hnd,
        searchFirst_none_of_noDigits _ (labelAt_none_of_noDigits solutionKw) r hnd,
        searchFirst_none_of_noDigits _ (labelAt_none_of_noDigits resultKw) r hnd,
        searchFirst_none_of_noDigits _ endNumAt_none_of_noDigits r hnd]

/-- Witness for the amended C2 at concrete inputs: a label-free response
where the fallback fires, and a digit-free response. -/
theorem extract_answer_fallback_witness :
    (noLabelMatch "see 3. done".data = true ∧
      extract_answer "see 3. done".data = searchFirst endNumAt "see 3. done".data) ∧
    ((∀ c ∈ "no numbers here".data, c.isDigit = false) ∧
      extract_answer "no numbers here".data = none) :=
  ⟨⟨by decide, (extract_answer_fallback "see 3. done".data).1 (by decide)⟩,
   ⟨by decide, (extract_answer_fallback "no numbers here".data).2 (by decide)⟩⟩

/-! ## Claim C3: missing responses yield explicit incorrect records -/

/-- C3: for every `(problem, model)` pair whose response text is absent,
`evaluate_responses` emits (never omits) a record with `is_correct = false`,
no matched answer, the explicit no-response marker, and an empty step
analysis; being a total function, it never raises. -/
theorem missing_response_record (p : PProblem) (responses : List (String × RespVal))
    (name : String) (rv : RespVal)
    (hmem : (name, rv) ∈ responses) (hnone : respText rv = none) :
    ∃ rec : ModelEvalR,
      (name, rec) ∈ (evaluate_responses p responses).model_evaluations ∧
      rec.response = none ∧
      rec.correctness.is_correct = false ∧
      rec.correctness.matched_answer = none ∧
      rec.correctness.error = some "No response received from model" ∧
      rec.step_analysis = ⟨0, [], false⟩ := by
  refine ⟨evalModel p name rv, ?_, ?_, ?_, ?_, ?_, ?_⟩ <;>
    first
      | exact List.mem_map.mpr ⟨(name, rv), hmem, rfl⟩
      | simp [evalModel, hnone]

/-- Witness for C3 at a concrete problem and response set containing a
`None` response. -/
theorem missing_response_record_witness :
    ∃ rec : ModelEvalR,
      ("gemini", rec) ∈
        (evaluate_responses ⟨"p1", "1+1?", "2".data, []⟩
          [("chatgpt", .rtext (some "2.".data)), ("gemini", .rtext none)]).model_evaluations ∧
      rec.response = none ∧
      rec.correctness.is_correct = false ∧
      rec.correctness.matched_answer = none ∧
      rec.correctness.error = some "No response received from model" ∧
      rec.step_analysis = ⟨0, [], false⟩ :=
  missing_response_record ⟨"p1", "1+1?", "2".data, []⟩
    [("chatgpt", .rtext (some "2.".data)), ("gemini", .rtext none)]
    "gemini" (.rtext none) (by simp) rfl

/-! ## Claim C9: the comparative reporter (spec-modelled) -/

/-- C9: whenever a problem has at least one correct and at least one
incorrect model, the reporter returns a non-empty comparison in which every
incorrect model is paired with a correct model, reporting the first index
where the step-type sequences differ and the step types present in one
sequence but absent from the other. -/
theorem comparative_report_divergence (records : List CRecord)
    (hc : ∃ r ∈ records, r.is_correct = true)
    (hi : ∃ r ∈ records, r.is_correct = false) :
    ∃ entries : List CompEntry,
      compareProblem records = .comparisons entries ∧
      entries ≠ [] ∧
      ∀ ic ∈ records, ic.is_correct = false →
        ∃ e ∈ entries, ∃ c ∈ records, c.is_correct = true ∧
          e.incorrect_model = ic.model ∧
          e.compared_with = c.model ∧
          e.first_divergence = firstDivergence ic.step_sequence c.step_sequence ∧
          e.missing_types = typesOnlyIn c.step_sequence ic.step_sequence ∧
          e.extra_types = typesOnlyIn ic.step_sequence c.step_sequence := by
  obtain ⟨r0, hr0, hr0c⟩ := hc
  obtain ⟨r1, hr1, hr1i⟩ := hi
  cases hcf : records.filter (fun r => r.is_correct) with
  | nil =>
    exfalso
    have : r0 ∈ records.filter (fun r => r.is_correct) :=
      List.mem_filter.mpr ⟨hr0, hr0c⟩
    rw [hcf] at this
    cases this
  | cons c0 cr =>
    refine ⟨(records.filter (fun r => !r.is_correct)).map (fun ic =>
      { incorrect_model := ic.model
        compared_with := c0.model
        first_divergence := firstDivergence ic.step_sequence c0.step_sequence
        missing_types := typesOnlyIn c0.step_sequence ic.step_sequence
        extra_types := typesOnlyIn ic.step_sequence c0.step_sequence }), ?_, ?_, ?_⟩
    · unfold compareProblem
      rw [hcf]
    · have : r1 ∈ records.filter (fun r => !r.is_correct) :=
        List.mem_filter.mpr ⟨hr1, by rw [hr1i]; rfl⟩
      exact fun hnil => absurd (List.map_eq_nil_iff.mp hnil)
        (List.ne_nil_of_mem this)
    · intro ic hic hici
      have hc0 : c0 ∈ records.filter (fun r => r.is_correct) := by
        rw [hcf]; exact List.mem_cons_self c0 cr
      have hc0' := List.mem_filter.mp hc0
      refine ⟨_, List.mem_map.mpr ⟨ic, List.mem_filter.mpr ⟨hic, by rw [hici]; rfl⟩, rfl⟩,
        c0, hc0'.1, hc0'.2, rfl, rfl, rfl, rfl, rfl⟩

/-- Witness for C9 at a concrete problem record set. -/
theorem comparative_report_divergence_witness :
    ∃ entries : List CompEntry,
      compareProblem
        [⟨"gemini", true, ["calculation", "conclusion"]⟩,
         ⟨"chatgpt", false, ["calculation"]⟩] = .comparisons entries ∧
      entries ≠ [] ∧
      ∀ ic ∈ ([⟨"gemini", true, ["calculation", "conclusion"]⟩,
               ⟨"chatgpt", false, ["calculation"]⟩] : List CRecord),
        ic.is_correct = false →
        ∃ e ∈ entries, ∃ c ∈ ([⟨"gemini", true, ["calculation", "conclusion"]⟩,
                               ⟨"chatgpt", false, ["calculation"]⟩] : List CRecord),
          c.is_correct = true ∧
          e.incorrect_model = ic.model ∧
          e.compared_with = c.model ∧
          e.first_divergence = firstDivergence ic.step_sequence c.step_sequence ∧
          e.missing_types = typesOnlyIn c.step_sequence ic.step_sequence ∧
          e.extra_types = typesOnlyIn ic.step_sequence c.step_sequence :=
  comparative_report_divergence
    [⟨"gemini", true, ["calculation", "conclusion"]⟩,
     ⟨"chatgpt", false, ["calculation"]⟩]
    (by decide) (by decide)

/-! ## Characterizations of the aggregation folds (claims C5, C6, C7) -/

def knownB (m : String) : Bool :=
  m = "chatgpt" || m = "gemini" || m = "perplexity"

def evalsKnown (l : List (String × AEval)) : Bool :=
  l.all (fun me => knownB me.1)

def allKnownB (rs : AResults) : Bool :=
  rs.all (fun pr => evalsKnown pr.2.model_evaluations)

def cntCorrect (l : List (String × AEval)) (m : String) : Nat :=
  l.countP (fun me => me.1 = m && me.2.is_correct)

def cntIncorrect (l : List (String × AEval)) (m : String) : Nat :=
  l.countP (fun me => me.1 = m && !me.2.is_correct)

def addC (a : Counts3) (x y z : Nat) : Counts3 :=
  ⟨a.chatgpt + x, a.gemini + y, a.perplexity + z⟩

theorem evalsKnown_cons (m : String) (e : AEval) (rest : List (String × AEval)) :
    evalsKnown ((m, e) :: rest) = (knownB m && evalsKnown rest) := by
  simp [evalsKnown]

theorem cntCorrect_cons (m : String) (e : AEval) (rest : List (String × AEval))
    (m' : String) :
    cntCorrect ((m, e) :: rest) m' =
      cntCorrect rest m' + (if m = m' ∧ e.is_correct = true then 1 else 0) := by
  simp [cntCorrect, List.countP_cons]

theorem cntIncorrect_cons (m : String) (e : AEval) (rest : List (String × AEval))
    (m' : String) :
    cntIncorrect ((m, e) :: rest) m' =
      cntIncorrect rest m' + (if m = m' ∧ e.is_correct = false then 1 else 0) := by
  simp [cntIncorrect, List.countP_cons]

theorem bump3_unknown (m : String) (c : Counts3) (hk : knownB m = false) :
    bump3 c m = .error "KeyError" := by
  simp only [knownB, Bool.or_eq_false_iff, decide_eq_false_iff_not] at hk
  simp [bump3, hk.1.1, hk.1.2, hk.2]

theorem tallyEvals_char (l : List (String × AEval)) : ∀ acc : Counts3 × Counts3,
    tallyEvals acc l =
      if evalsKnown l = true then
        .ok (addC acc.1 (cntCorrect l "chatgpt") (cntCorrect l "gemini")
               (cntCorrect l "perplexity"),
             addC acc.2 (cntIncorrect l "chatgpt") (cntIncorrect l "gemini")
               (cntIncorrect l "perplexity"))
      else .error "KeyError" := by
  induction l with
  | nil =>
    intro acc
    simp [tallyEvals, evalsKnown, cntCorrect, cntIncorrect, addC]
  | cons me rest ih =>
    intro acc
    obtain ⟨m, e⟩ := me
    by_cases hk : knownB m = true
    · have hm : m = "chatgpt" ∨ m = "gemini" ∨ m = "perplexity" := by
        have := hk
        unfold knownB at this
        simp only [Bool.or_eq_true, decide_eq_true_eq] at this
        tauto
      cases hc : e.is_correct <;> rcases hm with hm | hm | hm <;> subst hm <;>
        simp [tallyEvals, hc, bump3, Except.bind, ih, evalsKnown_cons, knownB,
          cntCorrect_cons, cntIncorrect_cons] <;>
        split <;> simp_all [addC] <;> omega
    · have hk' : knownB m = false := by simpa using hk
      have hek : evalsKnown ((m, e) :: rest) = false := by
        rw [evalsKnown_cons, hk']
        rfl
      cases hc : e.is_correct <;>
        simp [tallyEvals, hc, bump3_unknown m acc.1 hk', bump3_unknown m acc.2 hk',
          Except.bind, hek]

/-- Per-model correct counts summed over all problems. -/
def cntCorrectR (rs : AResults) (m : String) : Nat :=
  (rs.map (fun pr => cntCorrect pr.2.model_evaluations m)).sum

/-- Per-model incorrect counts summed over all problems. -/
def cntIncorrectR (rs : AResults) (m : String) : Nat :=
  (rs.map (fun pr => cntIncorrect pr.2.model_evaluations m)).sum

theorem allKnownB_cons (pr : String × AProblem) (rest : AResults) :
    allKnownB (pr :: rest) = (evalsKnown pr.2.model_evaluations && allKnownB rest) := by
  simp [allKnownB]

theorem tallyProblems_char (rs : AResults) : ∀ acc : Counts3 × Counts3,
    tallyProblems acc rs =
      if allKnownB rs = true then
        .ok (addC acc.1 (cntCorrectR rs "chatgpt") (cntCorrectR rs "gemini")
               (cntCorrectR rs "perplexity"),
             addC acc.2 (cntIncorrectR rs "chatgpt") (cntIncorrectR rs "gemini")
               (cntIncorrectR rs "perplexity"))
      else .error "KeyError" := by
  induction rs with
  | nil =>
    intro acc
    simp [tallyProblems, allKnownB, cntCorrectR, cntIncorrectR, addC]
  | cons pr rest ih =>
    intro acc
    have hunf : tallyProblems acc (pr :: rest) =
        (tallyEvals acc pr.2.model_evaluations).bind fun a => tallyProblems a rest := rfl
    rw [hunf, tallyEvals_char]
    by_cases hk : evalsKnown pr.2.model_evaluations = true
    · simp only [hk, if_true, reduceIte, Except.bind, ih, allKnownB_cons, Bool.true_and]
      by_cases hrest : allKnownB rest = true <;>
        simp [hrest, cntCorrectR, cntIncorrectR, addC, Counts3.mk.injEq, Prod.ext_iff]
      omega
    · have hk' : evalsKnown pr.2.model_evaluations = false := by simpa using hk
      simp [hk', allKnownB_cons, Except.bind]

/-- `_calculate_overall_statistics` succeeds exactly on known model names,
and then computes per-model correct/incorrect counts and guarded accuracy. -/
theorem calcOverallStatistics_char (rs : AResults) :
    calcOverallStatistics rs =
      if allKnownB rs = true then
        .ok { total_problems := rs.length
              correct_answers := ⟨cntCorrectR rs "chatgpt", cntCorrectR rs "gemini",
                cntCorrectR rs "perplexity"⟩
              incorrect_answers := ⟨cntIncorrectR rs "chatgpt", cntIncorrectR rs "gemini",
                cntIncorrectR rs "perplexity"⟩
              accuracy := mkAcc
                ⟨cntCorrectR rs "chatgpt", cntCorrectR rs "gemini", cntCorrectR rs "perplexity"⟩
                ⟨cntIncorrectR rs "chatgpt", cntIncorrectR rs "gemini",
                 cntIncorrectR rs "perplexity"⟩ }
      else .error "KeyError" := by
  unfold calcOverallStatistics
  rw [tallyProblems_char]
  by_cases hk : allKnownB rs = true <;> simp [hk, addC, Except.map]

/-- Per-model evaluated-problem count of `_analyze_model_performance`. -/
def perfCntTotal (rs : AResults) (m : String) : Nat :=
  rs.countP (fun pr => (lookupA m pr.2.model_evaluations).isSome)

/-- Per-model correct count of `_analyze_model_performance`. -/
def perfCntCorrect (rs : AResults) (m : String) : Nat :=
  rs.countP (fun pr =>
    match lookupA m pr.2.model_evaluations with
    | some e => e.is_correct
    | none => false)

/-- Per-model step-count sum of `_analyze_model_performance`. -/
def perfStepSum (rs : AResults) (m : String) : Nat :=
  (rs.map (fun pr =>
    match lookupA m pr.2.model_evaluations with
    | some e => e.step_count
    | none => 0)).sum

theorem perfGo_char (rs : AResults) : ∀ (m : String) (t c s : Nat),
    perfGo m rs t c s =
      (t + perfCntTotal rs m, c + perfCntCorrect rs m, s + perfStepSum rs m) := by
  induction rs with
  | nil =>
    intro m t c s
    simp [perfGo, perfCntTotal, perfCntCorrect, perfStepSum]
  | cons pr rest ih =>
    intro m t c s
    cases hl : lookupA m pr.2.model_evaluations with
    | none =>
      simp [perfGo, hl, ih, perfCntTotal, perfCntCorrect, perfStepSum,
        List.countP_cons, Prod.ext_iff]
    | some e =>
      cases hc : e.is_correct <;>
        simp [perfGo, hl, hc, ih, perfCntTotal, perfCntCorrect, perfStepSum,
          List.countP_cons, Prod.ext_iff] <;>
        omega

/-- `perfFor` in terms of the order-independent counts. -/
theorem perfFor_char (rs : AResults) (m : String) :
    perfFor rs m =
      { total := perfCntTotal rs m
        correct := perfCntCorrect rs m
        accuracy := ratio (perfCntCorrect rs m) (perfCntTotal rs m)
        avg_steps := if 0 < perfCntTotal rs m then
            (perfStepSum rs m : ℚ) / (perfCntTotal rs m : ℚ) else 0 } := by
  unfold perfFor
  rw [perfGo_char]
  simp

theorem knownB_cases (m : String) (hk : knownB m = true) :
    m = "chatgpt" ∨ m = "gemini" ∨ m = "perplexity" := by
  unfold knownB at hk
  simp only [Bool.or_eq_true, decide_eq_true_eq] at hk
  tauto

theorem knownB_false (m : String) (hk : knownB m = false) :
    ¬m = "chatgpt" ∧ ¬m = "gemini" ∧ ¬m = "perplexity" := by
  simp only [knownB, Bool.or_eq_false_iff, decide_eq_false_iff_not] at hk
  tauto

/-- A record with non-empty `step_types` never indexes the step maps with
an unknown model name. -/
def stepsKnown (l : List (String × AEval)) : Bool :=
  l.all (fun me => me.2.step_types.isEmpty || knownB me.1)

def stepsKnownR (rs : AResults) : Bool :=
  rs.all (fun pr => stepsKnown pr.2.model_evaluations)

/-- The `step_types` items contributed to model `m`'s map by one problem's
evaluations, in iteration order. -/
def itemsOf (m : String) (l : List (String × AEval)) : List (String × Nat) :=
  (l.filter (fun me => me.1 = m)).flatMap (fun me => me.2.step_types)

/-- The `step_types` items contributed to model `m`'s map by all problems. -/
def itemsForR (m : String) (rs : AResults) : List (String × Nat) :=
  rs.flatMap (fun pr => itemsOf m pr.2.model_evaluations)

/-- Sequential `d[k] = d.get(k, 0) + c` over a list of items. -/
def bumpFold (d : List (String × Nat)) (items : List (String × Nat)) :
    List (String × Nat) :=
  items.foldl (fun d2 it => bumpA d2 it.1 it.2) d

theorem bumpFold_append (d : List (String × Nat)) (a b : List (String × Nat)) :
    bumpFold d (a ++ b) = bumpFold (bumpFold d a) b := by
  simp [bumpFold, List.foldl_append]

theorem stepsKnown_cons (m : String) (e : AEval) (rest : List (String × AEval)) :
    stepsKnown ((m, e) :: rest) =
      ((e.step_types.isEmpty || knownB m) && stepsKnown rest) := by
  simp [stepsKnown]

theorem itemsOf_cons (m' m : String) (e : AEval) (rest : List (String × AEval)) :
    itemsOf m' ((m, e) :: rest) =
      (if m = m' then e.step_types else []) ++ itemsOf m' rest := by
  by_cases h : m = m' <;> simp [itemsOf, List.filter_cons, h]

theorem addStepsE_chatgpt (items : List (String × Nat)) : ∀ acc : Steps3,
    addStepsE acc "chatgpt" items =
      .ok { acc with chatgpt := bumpFold acc.chatgpt items } := by
  induction items with
  | nil => intro acc; simp [addStepsE, bumpFold]
  | cons it rest ih =>
    intro acc
    obtain ⟨st, c⟩ := it
    simp [addStepsE, ih, bumpFold]

theorem addStepsE_gemini (items : List (String × Nat)) : ∀ acc : Steps3,
    addStepsE acc "gemini" items =
      .ok { acc with gemini := bumpFold acc.gemini items } := by
  induction items with
  | nil => intro acc; simp [addStepsE, bumpFold]
  | cons it rest ih =>
    intro acc
    obtain ⟨st, c⟩ := it
    simp [addStepsE, ih, bumpFold]

theorem addStepsE_perplexity (items : List (String × Nat)) : ∀ acc : Steps3,
    addStepsE acc "perplexity" items =
      .ok { acc with perplexity := bumpFold acc.perplexity items } := by
  induction items with
  | nil => intro acc; simp [addStepsE, bumpFold]
  | cons it rest ih =>
    intro acc
    obtain ⟨st, c⟩ := it
    simp [addStepsE, ih, bumpFold]

theorem addStepsE_unknown (acc : Steps3) (m : String) (hk : knownB m = false)
    (items : List (String × Nat)) :
    addStepsE acc m items = if items.isEmpty then .ok acc else .error "KeyError" := by
  obtain ⟨h1, h2, h3⟩ := knownB_false m hk
  cases items with
  | nil => simp [addStepsE]
  | cons it rest =>
    obtain ⟨st, c⟩ := it
    simp [addStepsE, h1, h2, h3]

theorem stepsEvalsE_char (l : List (String × AEval)) : ∀ acc : Steps3,
    stepsEvalsE acc l =
      if stepsKnown l = true then
        .ok ⟨bumpFold acc.chatgpt (itemsOf "chatgpt" l),
             bumpFold acc.gemini (itemsOf "gemini" l),
             bumpFold acc.perplexity (itemsOf "perplexity" l)⟩
      else .error "KeyError" := by
  induction l with
  | nil =>
    intro acc
    simp [stepsEvalsE, stepsKnown, itemsOf, bumpFold]
  | cons me rest ih =>
    intro acc
    obtain ⟨m, e⟩ := me
    by_cases hk : knownB m = true
    · rcases knownB_cases m hk with hm | hm | hm <;> subst hm <;>
        simp [stepsEvalsE, addStepsE_chatgpt, addStepsE_gemini, addStepsE_perplexity,
          Except.bind, ih, stepsKnown_cons, itemsOf_cons, bumpFold_append, knownB]
    · have hk' : knownB m = false := by simpa using hk
      obtain ⟨h1, h2, h3⟩ := knownB_false m hk'
      cases hst : e.step_types with
      | nil =>
        simp [stepsEvalsE, hst, addStepsE, Except.bind, ih, stepsKnown_cons,
          itemsOf_cons, h1, h2, h3]
      | cons it its =>
        have hadd : addStepsE acc m e.step_types = .error "KeyError" := by
          rw [addStepsE_unknown acc m hk', hst]
          rfl
        have hsk : stepsKnown ((m, e) :: rest) = false := by
          rw [stepsKnown_cons, hst, hk']
          rfl
        simp [stepsEvalsE, hadd, hsk, Except.bind]

theorem stepsKnownR_cons (pr : String × AProblem) (rest : AResults) :
    stepsKnownR (pr :: rest) =
      (stepsKnown pr.2.model_evaluations && stepsKnownR rest) := by
  simp [stepsKnownR]

theorem itemsForR_cons (m : String) (pr : String × AProblem) (rest : AResults) :
    itemsForR m (pr :: rest) =
      itemsOf m pr.2.model_evaluations ++ itemsForR m rest := by
  simp [itemsForR]

theorem stepsProblemsE_char (rs : AResults) : ∀ acc : Steps3,
    stepsProblemsE acc rs =
      if stepsKnownR rs = true then
        .ok ⟨bumpFold acc.chatgpt (itemsForR "chatgpt" rs),
             bumpFold acc.gemini (itemsForR "gemini" rs),
             bumpFold acc.perplexity (itemsForR "perplexity" rs)⟩
      else .error "KeyError" := by
  induction rs with
  | nil =>
    intro acc
    simp [stepsProblemsE, stepsKnownR, itemsForR, bumpFold]
  | cons pr rest ih =>
    intro acc
    have hunf : stepsProblemsE acc (pr :: rest) =
        (stepsEvalsE acc pr.2.model_evaluations).bind fun a =>
          stepsProblemsE a rest := rfl
    rw [hunf, stepsEvalsE_char]
    by_cases hk : stepsKnown pr.2.model_evaluations = true
    · simp [hk, Except.bind, ih, stepsKnownR_cons, itemsForR_cons, bumpFold_append]
    · have hk' : stepsKnown pr.2.model_evaluations = false := by simpa using hk
      simp [hk', stepsKnownR_cons, Except.bind]

/-- `_analyze_steps` in closed form. -/
theorem analyzeStepsA_char (rs : AResults) :
    analyzeStepsA rs =
      if stepsKnownR rs = true then
        .ok ⟨bumpFold [] (itemsForR "chatgpt" rs),
             bumpFold [] (itemsForR "gemini" rs),
             bumpFold [] (itemsForR "perplexity" rs)⟩
      else .error "KeyError" :=
  stepsProblemsE_char rs ⟨[], [], []⟩

/-- An incorrect record never indexes the error lists with an unknown
model name. -/
def errsKnown (l : List (String × AEval)) : Bool :=
  l.all (fun me => me.2.is_correct || knownB me.1)

def errsKnownR (rs : AResults) : Bool :=
  rs.all (fun pr => errsKnown pr.2.model_evaluations)

/-- Error entries appended to model `m`'s list by one problem. -/
def errsOf (m pid ca : String) (l : List (String × AEval)) : List ErrEntry :=
  (l.filter (fun me => me.1 = m && !me.2.is_correct)).map
    (fun me => ⟨pid, ca, me.2.matched_answer⟩)

/-- Error entries appended to model `m`'s list over all problems, in
iteration order. -/
def errsForR (m : String) (rs : AResults) : List ErrEntry :=
  rs.flatMap (fun pr => errsOf m pr.1 pr.2.correct_answer pr.2.model_evaluations)

theorem errsKnown_cons (m : String) (e : AEval) (rest : List (String × AEval)) :
    errsKnown ((m, e) :: rest) = ((e.is_correct || knownB m) && errsKnown rest) := by
  simp [errsKnown]

theorem errsOf_cons (m' pid ca m : String) (e : AEval) (rest : List (String × AEval)) :
    errsOf m' pid ca ((m, e) :: rest) =
      (if m = m' ∧ e.is_correct = false then [⟨pid, ca, e.matched_answer⟩] else []) ++
        errsOf m' pid ca rest := by
  by_cases h1 : m = m' <;> cases h2 : e.is_correct <;>
    simp [errsOf, List.filter_cons, h1, h2]

theorem errEvalsE_char (l : List (String × AEval)) :
    ∀ (pid ca : String) (acc : Errs3),
    errEvalsE pid ca acc l =
      if errsKnown l = true then
        .ok ⟨acc.chatgpt ++ errsOf "chatgpt" pid ca l,
             acc.gemini ++ errsOf "gemini" pid ca l,
             acc.perplexity ++ errsOf "perplexity" pid ca l⟩
      else .error "KeyError" := by
  induction l with
  | nil =>
    intro pid ca acc
    simp [errEvalsE, errsKnown, errsOf]
  | cons me rest ih =>
    intro pid ca acc
    obtain ⟨m, e⟩ := me
    cases hc : e.is_correct
    · by_cases hk : knownB m = true
      · rcases knownB_cases m hk with hm | hm | hm <;> subst hm <;>
          simp [errEvalsE, hc, ih, errsKnown_cons, errsOf_cons, knownB,
            List.append_assoc]
      · have hk' : knownB m = false := by simpa using hk
        obtain ⟨h1, h2, h3⟩ := knownB_false m hk'
        have hek : errsKnown ((m, e) :: rest) = false := by
          rw [errsKnown_cons, hc, hk']
          rfl
        simp [errEvalsE, hc, h1, h2, h3, hek]
    · simp [errEvalsE, hc, ih, errsKnown_cons, errsOf_cons]

theorem errsKnownR_cons (pr : String × AProblem) (rest : AResults) :
    errsKnownR (pr :: rest) =
      (errsKnown pr.2.model_evaluations && errsKnownR rest) := by
  simp [errsKnownR]

theorem errsForR_cons (m : String) (pr : String × AProblem) (rest : AResults) :
    errsForR m (pr :: rest) =
      errsOf m pr.1 pr.2.correct_answer pr.2.model_evaluations ++ errsForR m rest := by
  simp [errsForR]

theorem errProblemsE_char (rs : AResults) : ∀ acc : Errs3,
    errProblemsE acc rs =
      if errsKnownR rs = true then
        .ok ⟨acc.chatgpt ++ errsForR "chatgpt" rs,
             acc.gemini ++ errsForR "gemini" rs,
             acc.perplexity ++ errsForR "perplexity" rs⟩
      else .error "KeyError" := by
  induction rs with
  | nil =>
    intro acc
    simp [errProblemsE, errsKnownR, errsForR]
  | cons pr rest ih =>
    intro acc
    have hunf : errProblemsE acc (pr :: rest) =
        (errEvalsE pr.1 pr.2.correct_answer acc pr.2.model_evaluations).bind fun a =>
          errProblemsE a rest := rfl
    rw [hunf, errEvalsE_char]
    by_cases hk : errsKnown pr.2.model_evaluations = true
    · simp [hk, Except.bind, ih, errsKnownR_cons, errsForR_cons, List.append_assoc]
    · have hk' : errsKnown pr.2.model_evaluations = false := by simpa using hk
      simp [hk', errsKnownR_cons, Except.bind]

/-- `_analyze_errors` in closed form: per-model error lists in problem
iteration order. -/
theorem analyzeErrorsA_char (rs : AResults) :
    analyzeErrorsA rs =
      if errsKnownR rs = true then
        .ok ⟨errsForR "chatgpt" rs, errsForR "gemini" rs, errsForR "perplexity" rs⟩
      else .error "KeyError" := by
  have h := errProblemsE_char rs ⟨[], [], []⟩
  simpa [analyzeErrorsA] using h

theorem lookupA_append {β : Type} (k : String) (d1 d2 : List (String × β)) :
    lookupA k (d1 ++ d2) =
      match lookupA k d1 with
      | some v => some v
      | none => lookupA k d2 := by
  induction d1 with
  | nil => simp [lookupA]
  | cons kv rest ih =>
    obtain ⟨k', v⟩ := kv
    by_cases h : k' = k <;> simp [lookupA, h, ih]

theorem lookupA_bumpCatA (d : List (String × Counts3)) (cat m k : String) :
    lookupA k (bumpCatA d cat m) =
      if cat = k then (lookupA k d).map (fun c => catBump c m)
      else lookupA k d := by
  induction d with
  | nil => simp [bumpCatA, lookupA]
  | cons kv rest ih =>
    obtain ⟨k', v⟩ := kv
    by_cases h1 : k' = cat
    · subst h1
      by_cases h2 : k' = k <;> simp [bumpCatA, lookupA, h2]
    · by_cases h2 : k' = k
      · subst h2
        have hck : ¬cat = k' := fun hh => h1 hh.symm
        simp [bumpCatA, lookupA, h1, hck]
      · simp [bumpCatA, lookupA, h1, h2, ih]

theorem lookupA_catUpdate (d : List (String × Counts3)) (cat m k : String) :
    lookupA k (catUpdate d cat m) =
      if cat = k then some (catBump ((lookupA cat d).getD ⟨0, 0, 0⟩) m)
      else lookupA k d := by
  unfold catUpdate
  cases hl : lookupA cat d with
  | some c =>
    rw [lookupA_bumpCatA]
    by_cases h : cat = k
    · subst h
      simp [hl]
    · simp [h]
  | none =>
    rw [lookupA_append]
    by_cases h : cat = k
    · subst h
      simp [hl, lookupA]
    · have h' : ¬k = cat := fun hh => h hh.symm
      cases hk : lookupA k d <;> simp [lookupA, h, h', hk]

/-- `catBump` adds one to the `m` component when `m` is a known model. -/
def catBumpN (c : Counts3) (m : String) (n : Nat) : Counts3 :=
  if m = "chatgpt" then { c with chatgpt := c.chatgpt + n }
  else if m = "gemini" then { c with gemini := c.gemini + n }
  else if m = "perplexity" then { c with perplexity := c.perplexity + n }
  else c

theorem catBump_eq_catBumpN (c : Counts3) (m : String) :
    catBump c m = catBumpN c m 1 := by
  unfold catBump catBumpN
  split_ifs <;> rfl

theorem catBumpN_zero (c : Counts3) (m : String) : catBumpN c m 0 = c := by
  unfold catBumpN
  split_ifs <;> rfl

theorem catBumpN_add (c : Counts3) (m : String) (a b : Nat) :
    catBumpN (catBumpN c m a) m b = catBumpN c m (a + b) := by
  unfold catBumpN
  split_ifs <;> simp [Counts3.mk.injEq] <;> omega

/-- Number of problems contributing a correct record of model `m` with
normalized predicted category `cat`. -/
def catCnt (m cat : String) (rs : AResults) : Nat :=
  rs.countP (fun pr =>
    match lookupA m pr.2.model_evaluations with
    | some e => e.is_correct && decide (pcNorm e = cat)
    | none => false)

theorem catProblems_lookup (rs : AResults) : ∀ (m : String) (d : List (String × Counts3))
    (cat : String),
    lookupA cat (catProblems m d rs) =
      match lookupA cat d with
      | some c => some (catBumpN c m (catCnt m cat rs))
      | none =>
        if 0 < catCnt m cat rs then some (catBumpN ⟨0, 0, 0⟩ m (catCnt m cat rs))
        else none := by
  induction rs with
  | nil =>
    intro m d cat
    cases hl : lookupA cat d <;> simp [catProblems, catCnt, hl, catBumpN_zero]
  | cons pr rest ih =>
    intro m d cat
    cases hl : lookupA m pr.2.model_evaluations with
    | none =>
      have hp : (match lookupA m pr.2.model_evaluations with
          | some e => e.is_correct && decide (pcNorm e = cat)
          | none => false) = false := by rw [hl]
      have hcnt : catCnt m cat (pr :: rest) = catCnt m cat rest := by
        simp [catCnt, List.countP_cons, hp]
      simp only [catProblems, hl, ih, hcnt]
    | some e =>
      cases hc : e.is_correct with
      | false =>
        have hp : (match lookupA m pr.2.model_evaluations with
            | some e => e.is_correct && decide (pcNorm e = cat)
            | none => false) = false := by rw [hl]; simp [hc]
        have hcnt : catCnt m cat (pr :: rest) = catCnt m cat rest := by
          simp [catCnt, List.countP_cons, hp]
        simp only [catProblems, hl, hc, Bool.false_eq_true, if_false, reduceIte, ih, hcnt]
      | true =>
        by_cases hcat : pcNorm e = cat
        · have hp : (match lookupA m pr.2.model_evaluations with
              | some e => e.is_correct && decide (pcNorm e = cat)
              | none => false) = true := by rw [hl]; simp [hc, hcat]
          have hcnt : catCnt m cat (pr :: rest) = catCnt m cat rest + 1 := by
            simp [catCnt, List.countP_cons, hp]
          simp only [catProblems, hl, hc, if_true, reduceIte, ih, lookupA_catUpdate,
            hcat, if_pos, hcnt]
          cases hld : lookupA cat d <;>
            simp [hld, catBump_eq_catBumpN, catBumpN_add, Nat.add_comm]
        · have hp : (match lookupA m pr.2.model_evaluations with
              | some e => e.is_correct && decide (pcNorm e = cat)
              | none => false) = false := by rw [hl]; simp [hcat]
          have hcnt : catCnt m cat (pr :: rest) = catCnt m cat rest := by
            simp [catCnt, List.countP_cons, hp]
          have hlu : lookupA cat (catUpdate d (pcNorm e) m) = lookupA cat d := by
            rw [lookupA_catUpdate]
            simp [hcat]
          simp only [catProblems, hl, hc, if_true, reduceIte, ih, hlu, hcnt]

/-- The final category dictionary's lookup as a function of the three
per-model category counts only. -/
def catChain (a b c : Nat) : Option Counts3 :=
  match
    (match (if 0 < a then some (catBumpN ⟨0, 0, 0⟩ "chatgpt" a) else none) with
     | some x => some (catBumpN x "gemini" b)
     | none => if 0 < b then some (catBumpN ⟨0, 0, 0⟩ "gemini" b) else none) with
  | some x => some (catBumpN x "perplexity" c)
  | none => if 0 < c then some (catBumpN ⟨0, 0, 0⟩ "perplexity" c) else none

theorem analyzeCategoriesA_lookup (rs : AResults) (cat : String) :
    lookupA cat (analyzeCategoriesA rs) =
      catChain (catCnt "chatgpt" cat rs) (catCnt "gemini" cat rs)
        (catCnt "perplexity" cat rs) := by
  unfold analyzeCategoriesA catChain
  rw [catProblems_lookup, catProblems_lookup, catProblems_lookup]
  rfl

theorem lookupA_bumpA (d : List (String × Nat)) (k' : String) (n : Nat) :
    ∀ k : String,
    lookupA k (bumpA d k' n) =
      if k' = k then some ((lookupA k d).getD 0 + n) else lookupA k d := by
  induction d with
  | nil =>
    intro k
    by_cases h : k' = k <;> simp [bumpA, lookupA, h]
  | cons kv rest ih =>
    intro k
    obtain ⟨a, v⟩ := kv
    by_cases h1 : a = k'
    · subst h1
      by_cases h2 : a = k <;> simp [bumpA, lookupA, h2]
    · by_cases h2 : a = k
      · subst h2
        have h3 : ¬k' = a := fun hh => h1 hh.symm
        simp [bumpA, lookupA, h1, h3]
      · simp [bumpA, lookupA, h1, h2, ih]

/-- Is some item keyed `k` present? -/
def hasKey (k : String) (items : List (String × Nat)) : Bool :=
  items.any (fun it => it.1 = k)

/-- Total count contributed to key `k` by the items. -/
def sumFor (k : String) (items : List (String × Nat)) : Nat :=
  ((items.filter (fun it => it.1 = k)).map (fun it => it.2)).sum

theorem bumpFold_lookup (items : List (String × Nat)) :
    ∀ (d : List (String × Nat)) (k : String),
    lookupA k (bumpFold d items) =
      if hasKey k items || (lookupA k d).isSome then
        some ((lookupA k d).getD 0 + sumFor k items)
      else none := by
  induction items with
  | nil =>
    intro d k
    cases h : lookupA k d <;> simp [bumpFold, hasKey, sumFor, h]
  | cons it rest ih =>
    intro d k
    obtain ⟨a, v⟩ := it
    rw [show bumpFold d ((a, v) :: rest) = bumpFold (bumpA d a v) rest from rfl, ih]
    by_cases h : a = k
    · subst h
      cases hld : lookupA a d <;>
        simp [lookupA_bumpA, hasKey, sumFor, List.filter_cons, hld, Nat.add_assoc,
          Nat.add_comm v]
    · have hb : lookupA k (bumpA d a v) = lookupA k d := by
        rw [lookupA_bumpA]
        simp [h]
      have h1 : hasKey k ((a, v) :: rest) = hasKey k rest := by
        simp [hasKey, h]
      have h2 : sumFor k ((a, v) :: rest) = sumFor k rest := by
        simp [sumFor, List.filter_cons, h]
      rw [hb, h1, h2]

theorem perm_all_eq {α : Type} (p : α → Bool) {l1 l2 : List α}
    (h : List.Perm l1 l2) : l1.all p = l2.all p := by
  cases h2 : l2.all p
  · rw [List.all_eq_false] at h2 ⊢
    obtain ⟨x, hx, hpx⟩ := h2
    exact ⟨x, h.mem_iff.mpr hx, hpx⟩
  · rw [List.all_eq_true] at h2 ⊢
    exact fun x hx => h2 x (h.mem_iff.mp hx)

theorem perm_any_eq {α : Type} (p : α → Bool) {l1 l2 : List α}
    (h : List.Perm l1 l2) : l1.any p = l2.any p := by
  cases h2 : l2.any p
  · rw [List.any_eq_false] at h2 ⊢
    exact fun x hx => h2 x (h.mem_iff.mp hx)
  · rw [List.any_eq_true] at h2 ⊢
    obtain ⟨x, hx, hpx⟩ := h2
    exact ⟨x, h.mem_iff.mpr hx, hpx⟩

theorem lookupA_eq_none_iff {β : Type} (k : String) (d : List (String × β)) :
    lookupA k d = none ↔ ∀ p ∈ d, ¬p.1 = k := by
  induction d with
  | nil => simp [lookupA]
  | cons kv rest ih =>
    obtain ⟨a, v⟩ := kv
    by_cases h : a = k <;> simp [lookupA, h, ih]

/-- Projection of the accuracy dictionary at a model key. -/
def acc3Get (a : Acc3) (m : String) : ℚ :=
  if m = "chatgpt" then a.chatgpt
  else if m = "gemini" then a.gemini
  else if m = "perplexity" then a.perplexity
  else 0

theorem stepsKnownR_of_allKnown (rs : AResults) (h : allKnownB rs = true) :
    stepsKnownR rs = true := by
  simp only [allKnownB, evalsKnown, List.all_eq_true] at h
  simp only [stepsKnownR, stepsKnown, List.all_eq_true]
  intro pr hpr me hme
  have := h pr hpr me hme
  simp [this]

theorem errsKnownR_of_allKnown (rs : AResults) (h : allKnownB rs = true) :
    errsKnownR rs = true := by
  simp only [allKnownB, evalsKnown, List.all_eq_true] at h
  simp only [errsKnownR, errsKnown, List.all_eq_true]
  intro pr hpr me hme
  have := h pr hpr me hme
  simp [this]

/-! ## Claim C7: totality versus `KeyError` on unknown model names -/

/-- C7 counterexample: a single well-typed record for the model `claude`
makes `analyze` raise a `KeyError` instead of returning a result. -/
theorem analyze_unknown_model_key_error :
    analyze [("p1", ⟨"7", [("claude", ⟨true, some "7", none, 0, []⟩)]⟩)] =
      .error "KeyError" := rfl

/-- C7 amended: the evaluation core is total, and the aggregation core is
total exactly on record collections whose model names all lie among
`chatgpt`, `gemini`, `perplexity`; a record for any other model name makes
the aggregation raise `KeyError`. -/
theorem analyze_total_on_known_models (rs : AResults) (h : allKnownB rs = true) :
    ∃ a, analyze rs = .ok a := by
  unfold analyze
  rw [calcOverallStatistics_char, analyzeStepsA_char, analyzeErrorsA_char]
  simp [h, stepsKnownR_of_allKnown rs h, errsKnownR_of_allKnown rs h, Except.bind]

/-- Witness for the amended C7 at a concrete record collection. -/
theorem analyze_total_on_known_models_witness :
    allKnownB [("p1", ⟨"7", [("chatgpt", ⟨true, some "7", none, 2, [("calculation", 2)]⟩),
                             ("gemini", ⟨false, none, none, 0, []⟩)]⟩)] = true ∧
    ∃ a, analyze [("p1", ⟨"7", [("chatgpt", ⟨true, some "7", none, 2, [("calculation", 2)]⟩),
                                ("gemini", ⟨false, none, none, 0, []⟩)]⟩)] = .ok a :=
  ⟨by decide,
   analyze_total_on_known_models _ (by decide)⟩

/-! ## Claim C6: aggregation over zero records -/

/-- C6: aggregating the empty collection reports overall accuracy 0 for
every model, empty step/error/category maps, and succeeds (no
division-by-zero); and a model with no records gets `total = correct = 0`,
`accuracy = 0`, `avg_steps = 0` in the per-model performance, and overall
accuracy 0 when the aggregation succeeds. -/
theorem aggregation_zero_records :
    (analyze [] = .ok
      { overall :=
          { total_problems := 0
            correct_answers := ⟨0, 0, 0⟩
            incorrect_answers := ⟨0, 0, 0⟩
            accuracy := ⟨0, 0, 0⟩ }
        performance := [("chatgpt", ⟨0, 0, 0, 0⟩), ("gemini", ⟨0, 0, 0, 0⟩),
          ("perplexity", ⟨0, 0, 0, 0⟩)]
        steps := ⟨[], [], []⟩
        errors := ⟨[], [], []⟩
        categories := [] }) ∧
    (∀ (rs : AResults) (m : String), m ∈ models3 →
      (∀ pr ∈ rs, lookupA m pr.2.model_evaluations = none) →
      perfFor rs m = ⟨0, 0, 0, 0⟩) ∧
    (∀ (rs : AResults) (m : String), m ∈ models3 → allKnownB rs = true →
      (∀ pr ∈ rs, lookupA m pr.2.model_evaluations = none) →
      ∃ s, calcOverallStatistics rs = .ok s ∧ acc3Get s.accuracy m = 0) := by
  refine ⟨rfl, ?_, ?_⟩
  · intro rs m _ hnone
    have ht : perfCntTotal rs m = 0 := by
      rw [perfCntTotal, List.countP_eq_zero]
      intro pr hpr
      simp [hnone pr hpr]
    have hc : perfCntCorrect rs m = 0 := by
      rw [perfCntCorrect, List.countP_eq_zero]
      intro pr hpr
      simp [hnone pr hpr]
    have hs : perfStepSum rs m = 0 := by
      refine List.sum_eq_zero ?_
      intro x hx
      obtain ⟨pr, hpr, hex⟩ := List.mem_map.mp hx
      rw [hnone pr hpr] at hex
      exact hex.symm
    rw [perfFor_char, ht, hc, hs]
    simp [ratio]
  · intro rs m hm hk hnone
    have hcc : ∀ pr ∈ rs, cntCorrect pr.2.model_evaluations m = 0 := by
      intro pr hpr
      rw [cntCorrect, List.countP_eq_zero]
      intro me hme
      have := (lookupA_eq_none_iff m pr.2.model_evaluations).mp (hnone pr hpr) me hme
      simp [this]
    have hci : ∀ pr ∈ rs, cntIncorrect pr.2.model_evaluations m = 0 := by
      intro pr hpr
      rw [cntIncorrect, List.countP_eq_zero]
      intro me hme
      have := (lookupA_eq_none_iff m pr.2.model_evaluations).mp (hnone pr hpr) me hme
      simp [this]
    have hR : cntCorrectR rs m = 0 := by
      refine List.sum_eq_zero ?_
      intro x hx
      obtain ⟨pr, hpr, hex⟩ := List.mem_map.mp hx
      rw [hcc pr hpr] at hex
      exact hex.symm
    have hI : cntIncorrectR rs m = 0 := by
      refine List.sum_eq_zero ?_
      intro x hx
      obtain ⟨pr, hpr, hex⟩ := List.mem_map.mp hx
      rw [hci pr hpr] at hex
      exact hex.symm
    have hchar := calcOverallStatistics_char rs
    rw [if_pos hk] at hchar
    refine ⟨_, hchar, ?_⟩
    simp only [models3, List.mem_cons, List.mem_singleton, List.not_mem_nil, or_false] at hm
    rcases hm with hm | hm | hm <;> subst hm <;>
      simp [acc3Get, mkAcc, hR, hI, ratio]

/-- Witness for C6 at a concrete collection with no `perplexity` records. -/
theorem aggregation_zero_records_witness :
    perfFor [("p1", ⟨"7", [("chatgpt", ⟨true, some "7", none, 1, []⟩)]⟩)] "perplexity" =
      ⟨0, 0, 0, 0⟩ ∧
    ∃ s, calcOverallStatistics
        [("p1", ⟨"7", [("chatgpt", ⟨true, some "7", none, 1, []⟩)]⟩)] = .ok s ∧
      acc3Get s.accuracy "perplexity" = 0 :=
  ⟨aggregation_zero_records.2.1 _ "perplexity" (by decide) (by decide),
   aggregation_zero_records.2.2 _ "perplexity" (by decide) (by decide) (by decide)⟩

/-! ## Claim C5: permutation invariance of the aggregation -/

/-- `analyze` in closed form on known model names. -/
theorem analyze_char (rs : AResults) (h : allKnownB rs = true) :
    analyze rs = .ok
      { overall :=
          { total_problems := rs.length
            correct_answers := ⟨cntCorrectR rs "chatgpt", cntCorrectR rs "gemini",
              cntCorrectR rs "perplexity"⟩
            incorrect_answers := ⟨cntIncorrectR rs "chatgpt", cntIncorrectR rs "gemini",
              cntIncorrectR rs "perplexity"⟩
            accuracy := mkAcc
              ⟨cntCorrectR rs "chatgpt", cntCorrectR rs "gemini", cntCorrectR rs "perplexity"⟩
              ⟨cntIncorrectR rs "chatgpt", cntIncorrectR rs "gemini",
               cntIncorrectR rs "perplexity"⟩ }
        performance := modelPerformance rs
        steps := ⟨bumpFold [] (itemsForR "chatgpt" rs),
                  bumpFold [] (itemsForR "gemini" rs),
                  bumpFold [] (itemsForR "perplexity" rs)⟩
        errors := ⟨errsForR "chatgpt" rs, errsForR "gemini" rs, errsForR "perplexity" rs⟩
        categories := analyzeCategoriesA rs } := by
  unfold analyze
  rw [calcOverallStatistics_char, analyzeStepsA_char, analyzeErrorsA_char]
  simp [h, stepsKnownR_of_allKnown rs h, errsKnownR_of_allKnown rs h, Except.bind]

def permExA : AResults :=
  [("p1", ⟨"7", [("chatgpt", ⟨false, some "1", none, 0, []⟩)]⟩),
   ("p2", ⟨"8", [("chatgpt", ⟨false, some "2", none, 0, []⟩)]⟩)]

def permExB : AResults :=
  [("p2", ⟨"8", [("chatgpt", ⟨false, some "2", none, 0, []⟩)]⟩),
   ("p1", ⟨"7", [("chatgpt", ⟨false, some "1", none, 0, []⟩)]⟩)]

/-- Projection of an analysis outcome onto the `chatgpt` error list. -/
def errChatOf : Except String AnalysisR → Option (List ErrEntry)
  | .ok a => some a.errors.chatgpt
  | .error _ => none

/-- C5 counterexample: swapping two problems permutes the per-model error
lists of `_analyze_errors`, so `analyze` does not produce identical output
on a permuted input. -/
theorem aggregation_not_permutation_invariant :
    List.Perm permExA permExB ∧ analyze permExA ≠ analyze permExB :=
  ⟨by decide, fun hcontra => absurd (congrArg errChatOf hcontra) (by decide)⟩

theorem cntCorrectR_perm {rs1 rs2 : AResults} (h : List.Perm rs1 rs2) (m : String) :
    cntCorrectR rs1 m = cntCorrectR rs2 m := by
  unfold cntCorrectR
  exact (h.map (fun pr => cntCorrect pr.2.model_evaluations m)).sum_eq

theorem cntIncorrectR_perm {rs1 rs2 : AResults} (h : List.Perm rs1 rs2) (m : String) :
    cntIncorrectR rs1 m = cntIncorrectR rs2 m := by
  unfold cntIncorrectR
  exact (h.map (fun pr => cntIncorrect pr.2.model_evaluations m)).sum_eq

theorem perfFor_perm {rs1 rs2 : AResults} (h : List.Perm rs1 rs2) (m : String) :
    perfFor rs1 m = perfFor rs2 m := by
  rw [perfFor_char, perfFor_char]
  rw [show perfCntTotal rs1 m = perfCntTotal rs2 m from h.countP_eq _,
    show perfCntCorrect rs1 m = perfCntCorrect rs2 m from h.countP_eq _,
    show perfStepSum rs1 m = perfStepSum rs2 m from (h.map _).sum_eq]

theorem itemsForR_perm {rs1 rs2 : AResults} (h : List.Perm rs1 rs2) (m : String) :
    List.Perm (itemsForR m rs1) (itemsForR m rs2) :=
  h.flatMap_right _

theorem stepsLookup_perm {rs1 rs2 : AResults} (h : List.Perm rs1 rs2)
    (m k : String) :
    lookupA k (bumpFold [] (itemsForR m rs1)) =
      lookupA k (bumpFold [] (itemsForR m rs2)) := by
  have hp := itemsForR_perm h m
  rw [bumpFold_lookup, bumpFold_lookup]
  rw [show hasKey k (itemsForR m rs1) = hasKey k (itemsForR m rs2) from perm_any_eq _ hp,
    show sumFor k (itemsForR m rs1) = sumFor k (itemsForR m rs2) from
      ((hp.filter _).map _).sum_eq]

theorem catCnt_perm {rs1 rs2 : AResults} (h : List.Perm rs1 rs2) (m cat : String) :
    catCnt m cat rs1 = catCnt m cat rs2 :=
  h.countP_eq _

/-- C5 amended: permuting the problem-keyed record collection leaves the
overall statistics, the per-model performance, the step-analysis maps (as
key-to-count mappings) and the category-performance map (as a key-to-counts
mapping) unchanged, while each per-model error list of the error analysis
is permuted along with the input rather than identical. -/
theorem aggregation_permutation (rs1 rs2 : AResults)
    (hperm : List.Perm rs1 rs2) (hk : allKnownB rs1 = true) :
    ∃ a1 a2, analyze rs1 = .ok a1 ∧ analyze rs2 = .ok a2 ∧
      a1.overall = a2.overall ∧
      a1.performance = a2.performance ∧
      (∀ k, lookupA k a1.steps.chatgpt = lookupA k a2.steps.chatgpt) ∧
      (∀ k, lookupA k a1.steps.gemini = lookupA k a2.steps.gemini) ∧
      (∀ k, lookupA k a1.steps.perplexity = lookupA k a2.steps.perplexity) ∧
      (∀ cat, lookupA cat a1.categories = lookupA cat a2.categories) ∧
      List.Perm a1.errors.chatgpt a2.errors.chatgpt ∧
      List.Perm a1.errors.gemini a2.errors.gemini ∧
      List.Perm a1.errors.perplexity a2.errors.perplexity := by
  have hk2 : allKnownB rs2 = true := by
    rw [allKnownB] at hk ⊢
    rw [← perm_all_eq _ hperm]
    exact hk
  refine ⟨_, _, analyze_char rs1 hk, analyze_char rs2 hk2, ?_, ?_, ?_, ?_, ?_, ?_, ?_, ?_, ?_⟩
  · simp only [OverallStats.mk.injEq]
    refine ⟨hperm.length_eq, ?_, ?_, ?_⟩ <;>
      simp [Counts3.mk.injEq, mkAcc, cntCorrectR_perm hperm, cntIncorrectR_perm hperm]
  · show modelPerformance rs1 = modelPerformance rs2
    unfold modelPerformance
    refine List.map_congr_left ?_
    intro m _
    rw [perfFor_perm hperm m]
  · exact fun k => stepsLookup_perm hperm "chatgpt" k
  · exact fun k => stepsLookup_perm hperm "gemini" k
  · exact fun k => stepsLookup_perm hperm "perplexity" k
  · intro cat
    rw [analyzeCategoriesA_lookup, analyzeCategoriesA_lookup,
      catCnt_perm hperm "chatgpt" cat, catCnt_perm hperm "gemini" cat,
      catCnt_perm hperm "perplexity" cat]
  · exact hperm.flatMap_right _
  · exact hperm.flatMap_right _
  · exact hperm.flatMap_right _

/-- Witness for the amended C5 at the concrete swapped collections. -/
theorem aggregation_permutation_witness :
    ∃ a1 a2, analyze permExA = .ok a1 ∧ analyze permExB = .ok a2 ∧
      a1.overall = a2.overall ∧
      a1.performance = a2.performance ∧
      (∀ k, lookupA k a1.steps.chatgpt = lookupA k a2.steps.chatgpt) ∧
      (∀ k, lookupA k a1.steps.gemini = lookupA k a2.steps.gemini) ∧
      (∀ k, lookupA k a1.steps.perplexity = lookupA k a2.steps.perplexity) ∧
      (∀ cat, lookupA cat a1.categories = lookupA cat a2.categories) ∧
      List.Perm a1.errors.chatgpt a2.errors.chatgpt ∧
      List.Perm a1.errors.gemini a2.errors.gemini ∧
      List.Perm a1.errors.perplexity a2.errors.perplexity :=
  aggregation_permutation permExA permExB (by decide) (by decide)

/-! ## Claim C8: response-time statistics and missing timing data -/

theorem lookupA_updA {β : Type} (d : List (String × β)) (k' : String) (f : β → β) :
    ∀ k, lookupA k (updA d k' f) =
      if k' = k then (lookupA k d).map f else lookupA k d := by
  induction d with
  | nil =>
    intro k
    by_cases h : k' = k <;> simp [updA, lookupA, h]
  | cons kv rest ih =>
    intro k
    obtain ⟨a, v⟩ := kv
    by_cases h1 : a = k'
    · subst h1
      by_cases h2 : a = k <;> simp [updA, lookupA, h2]
    · by_cases h2 : a = k
      · subst h2
        have h3 : ¬k' = a := fun hh => h1 hh.symm
        simp [updA, lookupA, h1, h3]
      · simp [updA, lookupA, h1, h2, ih]

theorem lookupA_rtEnsure_self (d : List (String × RTAcc)) (m : String) :
    lookupA m (rtEnsure d m) = some ((lookupA m d).getD rtInit) := by
  unfold rtEnsure
  cases h : lookupA m d <;> simp [h, lookupA_append, lookupA]

theorem lookupA_rtEnsure_other (d : List (String × RTAcc)) (m k : String)
    (h : ¬m = k) : lookupA k (rtEnsure d m) = lookupA k d := by
  unfold rtEnsure
  cases hm : lookupA m d
  · cases hk : lookupA k d <;> simp [lookupA_append, lookupA, h, hk]
  · rfl

theorem lookupA_cmpEnsure_self (d : List (String × CmpAcc)) (m : String) :
    lookupA m (cmpEnsure d m) = some ((lookupA m d).getD ⟨0, 0, 0⟩) := by
  unfold cmpEnsure
  cases h : lookupA m d <;> simp [h, lookupA_append, lookupA]

theorem lookupA_cmpEnsure_other (d : List (String × CmpAcc)) (m k : String)
    (h : ¬m = k) : lookupA k (cmpEnsure d m) = lookupA k d := by
  unfold cmpEnsure
  cases hm : lookupA m d
  · cases hk : lookupA k d <;> simp [lookupA_append, lookupA, h, hk]
  · rfl

/-- All `(model_name, model_data)` entries in problem iteration order. -/
def rEntriesR (rs : RResults) : List (String × RData) :=
  rs.flatMap (fun pr => pr.2)

/-- Does the entry list touch the per-model dictionaries at key `m`?
(Entries named `category` are skipped by the analyzer.) -/
def hasModel (m : String) (l : List (String × RData)) : Bool :=
  l.any (fun en => en.1 = m && !(en.1 = "category"))

/-- The model-data records of model `m` in iteration order. -/
def mdOf (m : String) (l : List (String × RData)) : List RData :=
  (l.filter (fun en => en.1 = m && !(en.1 = "category"))).map (fun en => en.2)

/-- The response times fed into the statistics for model `m`: every record
contributes, a missing time as `0` (`model_data.get('response_time', 0)`). -/
def dTimesOf (m : String) (l : List (String × RData)) : List ℚ :=
  (mdOf m l).map (fun md => md.response_time.getD 0)

theorem rtEntries_char (l : List (String × RData)) :
    ∀ (d : List (String × RTAcc)) (m : String),
    lookupA m (rtEntries d l) =
      match lookupA m d with
      | some a => some ((dTimesOf m l).foldl rtUpdate a)
      | none =>
        if hasModel m l = true then some ((dTimesOf m l).foldl rtUpdate rtInit)
        else none := by
  induction l with
  | nil =>
    intro d m
    cases h : lookupA m d <;> simp [rtEntries, dTimesOf, mdOf, hasModel, h]
  | cons en rest ih =>
    intro d m
    obtain ⟨n, md⟩ := en
    by_cases hcat : n = "category"
    · subst hcat
      have hskip : rtEntry d "category" md = d := by simp [rtEntry]
      have hdt : dTimesOf m (("category", md) :: rest) = dTimesOf m rest := by
        simp [dTimesOf, mdOf, List.filter_cons]
      have hhm : hasModel m (("category", md) :: rest) = hasModel m rest := by
        simp [hasModel, List.any_cons]
      simp only [rtEntries, hskip, ih, hdt, hhm]
    · by_cases hm : n = m
      · subst hm
        have hstep : rtEntry d n md =
            updA (rtEnsure d n) n
              (fun a => rtUpdate a (md.response_time.getD 0)) := by
          simp [rtEntry, hcat]
        have hlook : lookupA n (rtEntry d n md) =
            some (rtUpdate ((lookupA n d).getD rtInit) (md.response_time.getD 0)) := by
          rw [hstep, lookupA_updA, if_pos rfl, lookupA_rtEnsure_self]
          rfl
        have hdt : dTimesOf n ((n, md) :: rest) =
            md.response_time.getD 0 :: dTimesOf n rest := by
          simp [dTimesOf, mdOf, List.filter_cons, hcat]
        have hhm : hasModel n ((n, md) :: rest) = true := by
          simp [hasModel, List.any_cons, hcat]
        simp only [rtEntries, ih, hlook, hdt, hhm, List.foldl_cons, if_true]
        cases hld : lookupA n d <;> simp [hld, rtInit]
      · have hstep : lookupA m (rtEntry d n md) = lookupA m d := by
          by_cases hnc : n = "category"
          · simp [rtEntry, hnc]
          · simp only [rtEntry, hnc, if_neg, if_false, reduceIte]
            rw [lookupA_updA, if_neg hm, lookupA_rtEnsure_other d n m hm]
        have hdt : dTimesOf m ((n, md) :: rest) = dTimesOf m rest := by
          simp [dTimesOf, mdOf, List.filter_cons, hm]
        have hhm : hasModel m ((n, md) :: rest) = hasModel m rest := by
          simp [hasModel, List.any_cons, hm]
        simp only [rtEntries, ih, hstep, hdt, hhm]

theorem rtEntries_append (a b : List (String × RData)) :
    ∀ d, rtEntries d (a ++ b) = rtEntries (rtEntries d a) b := by
  induction a with
  | nil => intro d; rfl
  | cons en rest ih =>
    intro d
    obtain ⟨n, md⟩ := en
    simp only [List.cons_append, List.append_eq, rtEntries, ih]

theorem rtProblems_eq (rs : RResults) : ∀ d,
    rtProblems d rs = rtEntries d (rEntriesR rs) := by
  induction rs with
  | nil => intro d; rfl
  | cons pr rest ih =>
    intro d
    simp only [rtProblems, ih, rEntriesR, List.flatMap_cons, rtEntries_append]

theorem cmpEntries_char (l : List (String × RData)) :
    ∀ (d : List (String × CmpAcc)) (m : String),
    lookupA m (cmpEntries d l) =
      match lookupA m d with
      | some a => some ((mdOf m l).foldl cmpUpdate a)
      | none =>
        if hasModel m l = true then some ((mdOf m l).foldl cmpUpdate ⟨0, 0, 0⟩)
        else none := by
  induction l with
  | nil =>
    intro d m
    cases h : lookupA m d <;> simp [cmpEntries, mdOf, hasModel, h]
  | cons en rest ih =>
    intro d m
    obtain ⟨n, md⟩ := en
    by_cases hcat : n = "category"
    · subst hcat
      have hskip : cmpEntry d "category" md = d := by simp [cmpEntry]
      have hmd : mdOf m (("category", md) :: rest) = mdOf m rest := by
        simp [mdOf, List.filter_cons]
      have hhm : hasModel m (("category", md) :: rest) = hasModel m rest := by
        simp [hasModel, List.any_cons]
      simp only [cmpEntries, hskip, ih, hmd, hhm]
    · by_cases hm : n = m
      · subst hm
        have hstep : cmpEntry d n md =
            updA (cmpEnsure d n) n (fun a => cmpUpdate a md) := by
          simp [cmpEntry, hcat]
        have hlook : lookupA n (cmpEntry d n md) =
            some (cmpUpdate ((lookupA n d).getD ⟨0, 0, 0⟩) md) := by
          rw [hstep, lookupA_updA, if_pos rfl, lookupA_cmpEnsure_self]
          rfl
        have hmd : mdOf n ((n, md) :: rest) = md :: mdOf n rest := by
          simp [mdOf, List.filter_cons, hcat]
        have hhm : hasModel n ((n, md) :: rest) = true := by
          simp [hasModel, List.any_cons, hcat]
        simp only [cmpEntries, ih, hlook, hmd, hhm, List.foldl_cons, if_true]
        cases hld : lookupA n d <;> simp [hld]
      · have hstep : lookupA m (cmpEntry d n md) = lookupA m d := by
          simp only [cmpEntry, hcat, if_neg, if_false, reduceIte]
          rw [lookupA_updA, if_neg hm, lookupA_cmpEnsure_other d n m hm]
        have hmd : mdOf m ((n, md) :: rest) = mdOf m rest := by
          simp [mdOf, List.filter_cons, hm]
        have hhm : hasModel m ((n, md) :: rest) = hasModel m rest := by
          simp [hasModel, List.any_cons, hm]
        simp only [cmpEntries, ih, hstep, hmd, hhm]

theorem cmpEntries_append (a b : List (String × RData)) :
    ∀ d, cmpEntries d (a ++ b) = cmpEntries (cmpEntries d a) b := by
  induction a with
  | nil => intro d; rfl
  | cons en rest ih =>
    intro d
    obtain ⟨n, md⟩ := en
    simp only [List.cons_append, List.append_eq, cmpEntries, ih]

theorem cmpProblems_eq (rs : RResults) : ∀ d,
    cmpProblems d rs = cmpEntries d (rEntriesR rs) := by
  induction rs with
  | nil => intro d; rfl
  | cons pr rest ih =>
    intro d
    simp only [cmpProblems, ih, rEntriesR, List.flatMap_cons, cmpEntries_append]

theorem lookupA_map_snd {β γ : Type} (g : β → γ) (d : List (String × β)) :
    ∀ k, lookupA k (d.map (fun p => (p.1, g p.2))) = (lookupA k d).map g := by
  induction d with
  | nil => intro k; simp [lookupA]
  | cons kv rest ih =>
    intro k
    obtain ⟨a, v⟩ := kv
    by_cases h : a = k <;> simp [lookupA, h, ih]

/-- The response-time fold counts every contribution and sums the
(possibly defaulted) times. -/
theorem rtFold_count_total (ts : List ℚ) : ∀ a : RTAcc,
    (ts.foldl rtUpdate a).count = a.count + ts.length ∧
    (ts.foldl rtUpdate a).total = a.total + ts.sum := by
  induction ts with
  | nil => intro a; simp
  | cons t rest ih =>
    intro a
    simp only [List.foldl_cons, List.length_cons, List.sum_cons]
    refine ⟨?_, ?_⟩
    · rw [(ih (rtUpdate a t)).1]
      simp [rtUpdate]
      omega
    · rw [(ih (rtUpdate a t)).2]
      simp [rtUpdate]
      ring

/-- The model-comparison fold counts every record toward `total` and every
correct record toward `correct`. -/
theorem cmpFold_total_correct (mds : List RData) : ∀ a : CmpAcc,
    (mds.foldl cmpUpdate a).total = a.total + mds.length ∧
    (mds.foldl cmpUpdate a).correct = a.correct + mds.countP (fun md => md.is_correct) := by
  induction mds with
  | nil => intro a; simp
  | cons md rest ih =>
    intro a
    simp only [List.foldl_cons, List.length_cons, List.countP_cons]
    refine ⟨?_, ?_⟩
    · rw [(ih (cmpUpdate a md)).1]
      simp [cmpUpdate]
      omega
    · rw [(ih (cmpUpdate a md)).2]
      cases hc : md.is_correct <;> simp [cmpUpdate, hc]
      omega

def rtExample : RResults :=
  [("p1", [("chatgpt", ⟨true, ["a", "b"], some 4, none⟩)]),
   ("p2", [("chatgpt", ⟨false, ["a"], none, none⟩)])]

/-- The response times of the records that do carry timing data. -/
def timedOf (m : String) (rs : RResults) : List ℚ :=
  (mdOf m (rEntriesR rs)).filterMap (fun md => md.response_time)

/-- C8 counterexample: with one timed record (4 s) and one record lacking
timing data, the computed statistics are count 2, min 0, average 2 — not
the min 4 / average 4 of the records that carry timing data, so untimed
records are not excluded. -/
theorem response_time_not_excluded :
    timedOf "chatgpt" rtExample = [4] ∧
    lookupA "chatgpt" (analyzeResponseTimes rtExample) = some ⟨4, 2, some 0, 4, 2⟩ ∧
    rtFinalize ((timedOf "chatgpt" rtExample).foldl rtUpdate rtInit) =
      ⟨4, 1, some 4, 4, 4⟩ ∧
    lookupA "chatgpt" (analyzeResponseTimes rtExample) ≠
      some (rtFinalize ((timedOf "chatgpt" rtExample).foldl rtUpdate rtInit)) := by
  have h1 : timedOf "chatgpt" rtExample = [4] := by decide
  have h2 : lookupA "chatgpt" (analyzeResponseTimes rtExample) = some ⟨4, 2, some 0, 4, 2⟩ := by
    norm_num [analyzeResponseTimes, rtProblems, rtEntries, rtEntry, rtEnsure, updA, lookupA,
      rtExample, rtUpdate, rtInit, rtFinalize]
  have h3 : rtFinalize (([4] : List ℚ).foldl rtUpdate rtInit) = ⟨4, 1, some 4, 4, 4⟩ := by
    norm_num [rtUpdate, rtInit, rtFinalize]
  refine ⟨h1, h2, ?_, ?_⟩
  · rw [h1]
    exact h3
  · rw [h1, h2, h3]
    simp

/-- C8 amended: a record lacking timing data is not excluded from the
response-time statistic — it contributes a default time of 0 (so the count
and average include it and the minimum is clamped to at most 0): for every
model the computed statistics are exactly the fold over all of that
model's records with missing times read as 0, and the model-comparison
accuracy counts every record regardless of timing data. -/
theorem response_time_default_zero (rs : RResults) (m : String) :
    (lookupA m (analyzeResponseTimes rs) =
      if hasModel m (rEntriesR rs) = true then
        some (rtFinalize ((dTimesOf m (rEntriesR rs)).foldl rtUpdate rtInit))
      else none) ∧
    (lookupA m (compareModels rs) =
      if hasModel m (rEntriesR rs) = true then
        some (cmpFinalize ((mdOf m (rEntriesR rs)).foldl cmpUpdate ⟨0, 0, 0⟩))
      else none) ∧
    (∀ ts : List ℚ, (ts.foldl rtUpdate rtInit).count = ts.length ∧
      (ts.foldl rtUpdate rtInit).total = ts.sum) ∧
    (∀ mds : List RData, (mds.foldl cmpUpdate ⟨0, 0, 0⟩).total = mds.length ∧
      (mds.foldl cmpUpdate ⟨0, 0, 0⟩).correct = mds.countP (fun md => md.is_correct)) := by
  refine ⟨?_, ?_, ?_, ?_⟩
  · unfold analyzeResponseTimes
    rw [lookupA_map_snd, rtProblems_eq, rtEntries_char]
    simp only [lookupA]
    by_cases h : hasModel m (rEntriesR rs) = true <;> simp [h]
  · unfold compareModels
    rw [lookupA_map_snd, cmpProblems_eq, cmpEntries_char]
    simp only [lookupA]
    by_cases h : hasModel m (rEntriesR rs) = true <;> simp [h]
  · intro ts
    have h := rtFold_count_total ts rtInit
    simpa [rtInit] using h
  · intro mds
    have h := cmpFold_total_correct mds ⟨0, 0, 0⟩
    simpa using h

end MathEval
